import Mathlib

/-!
Verification development for the profile-registration engine of
`image_processing.py` (project-tracs).

The Python code is shallowly embedded over an arbitrary linearly ordered
field `K` (instantiated at `ℚ` for executable checks).  Floating-point
arithmetic is modelled exactly; `float('inf')` is modelled by `EVal.inf`.
The two external numerical routines the code calls — `np.linalg.svd` and
the square root inside `np.linalg.norm` / `np.hypot` — are passed in as
explicit oracle parameters (`svd`, `sqrt`); theorems that need facts about
them take those facts as hypotheses (`IsSVD`, `sqrt 0 = 0`, ...).
-/

set_option maxHeartbeats 1000000

open scoped Matrix

/-- Points are 2-vectors over the coordinate field. -/
abbrev V2 (K : Type) := Fin 2 → K

/-- 2x2 matrices (rotation / linear blocks). -/
abbrev M2 (K : Type) := Matrix (Fin 2) (Fin 2) K

/-- 3x3 homogeneous transform matrices. -/
abbrev M3 (K : Type) := Matrix (Fin 3) (Fin 3) K

/-- Model of a Python float that is either a finite value or `float('inf')`. -/
inductive EVal (K : Type) where
  | val : K → EVal K
  | inf : EVal K
deriving DecidableEq

variable {K : Type} [LinearOrderedField K]

/-- Comparison `e < c` of a possibly-infinite float with a finite float:
`inf < c` is false. -/
def EVal.ltR : EVal K → K → Prop
  | EVal.val x, c => x < c
  | EVal.inf, _ => False

instance (e : EVal K) (c : K) : Decidable (EVal.ltR e c) := by
  cases e with
  | val x => exact (inferInstance : Decidable (x < c))
  | inf => exact (inferInstance : Decidable False)

/-- Comparison `a < b` of two possibly-infinite floats (`inf < inf` is false,
`x < inf` is true for finite x). -/
def EVal.blt : EVal K → EVal K → Bool
  | EVal.val a, EVal.val b => decide (a < b)
  | EVal.val _, EVal.inf => true
  | EVal.inf, _ => false

/-- Euclidean norm of a 2-vector, with the square root as an oracle
(models `np.linalg.norm(v)` / `np.hypot`). -/
def norm2 (sqrt : K → K) (v : V2 K) : K := sqrt (v 0 ^ 2 + v 1 ^ 2)

/-- Arithmetic mean of a list of points (`arr.mean(axis=0)`). -/
def listMean (l : List (V2 K)) : V2 K := ((l.length : K))⁻¹ • l.sum

/-- Centered point list (`arr - arr.mean(axis=0)`). -/
def centeredList (l : List (V2 K)) : List (V2 K) := l.map (fun p => p - listMean l)

/-- Cross-covariance matrix `a^T @ b` of two equally long point lists:
entry (i,j) is `Σ_k a_k[i] * b_k[j]`. -/
def crossCov (a b : List (V2 K)) : M2 K :=
  ((a.zip b).map (fun pq => Matrix.vecMulVec pq.1 pq.2)).sum

/-- The covariance matrix `H = src_centered.T @ dst_centered` of
`_compute_rigid_transform` (image_processing.py line 189). -/
def rigidHOf (src dst : List (V2 K)) : M2 K :=
  crossCov (centeredList src) (centeredList dst)

/-- The covariance matrix `H = src_centered.T @ dst_centered / N` of
`_compute_similarity_transform` (image_processing.py line 227). -/
def simHOf (src dst : List (V2 K)) : M2 K :=
  (((centeredList src).length : K))⁻¹ • crossCov (centeredList src) (centeredList dst)

/-- `Vt[-1, :] *= -1` (negate the last row of Vt), lines 194 and 231. -/
def negLastRow (Vt : M2 K) : M2 K := Vt.updateRow 1 (fun j => -(Vt 1 j))

/-- The rotation produced from an SVD `(U, S, Vt)` of the covariance:
`R = Vt.T @ U.T`, with the proper-rotation (det) correction of
lines 191-195 / 229-232. -/
def flipRot (U Vt : M2 K) : M2 K :=
  if (Vtᵀ * Uᵀ).det < 0 then (negLastRow Vt)ᵀ * Uᵀ else Vtᵀ * Uᵀ

/-- `T = eye(3); T[0:2,0:2] = A; T[0:2,2] = t` as a 3x3 matrix. -/
def mkT (A : M2 K) (t : V2 K) : M3 K :=
  Matrix.of ![![A 0 0, A 0 1, t 0], ![A 1 0, A 1 1, t 1], ![0, 0, 1]]

/-- `T[0:2, 0:2]`, the top-left linear block of a homogeneous transform. -/
def linOf (T : M3 K) : M2 K := Matrix.of ![![T 0 0, T 0 1], ![T 1 0, T 1 1]]

/-- `T[0:2, 2]`, the translation column of a homogeneous transform. -/
def transOf (T : M3 K) : V2 K := ![T 0 2, T 1 2]

/-- Application of a homogeneous transform to a point exactly as the code does
it: `(T[0:2,0:2] @ p) + T[0:2,2]`. -/
def applyT (T : M3 K) (p : V2 K) : V2 K := (linOf T).mulVec p + transOf T

/-- The bottom row of the homogeneous matrix is `(0, 0, 1)`. -/
def bottomRowP (T : M3 K) : Prop := T 2 0 = 0 ∧ T 2 1 = 0 ∧ T 2 2 = 1

/-- Specification of the SVD oracle at a given matrix: `H = U @ diag(S) @ Vt`
with U, Vt orthogonal and the singular values nonnegative and descending —
exactly what `np.linalg.svd` guarantees. -/
def IsSVD (H : M2 K) (d : M2 K × V2 K × M2 K) : Prop :=
  d.1ᵀ * d.1 = 1 ∧ d.2.2ᵀ * d.2.2 = 1 ∧ d.2.1 1 ≤ d.2.1 0 ∧ 0 ≤ d.2.1 1 ∧
    d.1 * Matrix.diagonal d.2.1 * d.2.2 = H

/-- Embedding of `_compute_rigid_transform` (lines 172-207): rotation +
translation, no scale, via an SVD of the cross-covariance. -/
def computeRigidTransform (svd : M2 K → M2 K × V2 K × M2 K) (sqrt : K → K)
    (src dst : List (V2 K)) : M3 K × EVal K :=
  if src.isEmpty ∨ dst.isEmpty then ((1 : M3 K), EVal.inf) else
  let srcMean := listMean src
  let dstMean := listMean dst
  let usv := svd (rigidHOf src dst)
  let R := flipRot usv.1 usv.2.2
  let t := dstMean - R.mulVec srcMean
  let residuals := (src.zip dst).map (fun pq => norm2 sqrt (R.mulVec pq.1 + t - pq.2))
  (mkT R t,
    if residuals.length = 0 then EVal.inf
    else EVal.val (residuals.sum / (residuals.length : K)))

/-- Embedding of `_compute_similarity_transform` (lines 210-246): rotation +
uniform scale + translation. `np.trace(np.diag(S))` is `S 0 + S 1`. -/
def computeSimilarityTransform (svd : M2 K → M2 K × V2 K × M2 K) (sqrt : K → K)
    (src dst : List (V2 K)) : M3 K × EVal K :=
  if src.isEmpty ∨ dst.isEmpty then ((1 : M3 K), EVal.inf) else
  let srcMean := listMean src
  let dstMean := listMean dst
  let varSrc := ((centeredList src).map (fun p => p 0 ^ 2 + p 1 ^ 2)).sum /
    (((centeredList src).length : K))
  let usv := svd (simHOf src dst)
  let R := flipRot usv.1 usv.2.2
  let scale := if 0 < varSrc then (usv.2.1 0 + usv.2.1 1) / varSrc else 1
  let t := dstMean - scale • R.mulVec srcMean
  let residuals := (src.zip dst).map
    (fun pq => norm2 sqrt (scale • R.mulVec pq.1 + t - pq.2))
  (mkT (scale • R) t,
    if residuals.length = 0 then EVal.inf
    else EVal.val (residuals.sum / (residuals.length : K)))

/-- Index of the first minimal element of a non-empty list of distances
(`np.argmin` / first-hit tie-breaking of `cKDTree.query`); auxiliary loop. -/
def argminAux : List K → ℕ → ℕ → K → ℕ
  | [], _, bi, _ => bi
  | x :: xs, i, bi, bv => if x < bv then argminAux xs (i + 1) i x else argminAux xs (i + 1) bi bv

/-- Index of the first minimal element of a list (`np.argmin`); 0 on `[]`. -/
def argminList : List K → ℕ
  | [] => 0
  | x :: xs => argminAux xs 1 0 x

/-- Index in `dst` of the nearest neighbour of `p` (brute-force distance
minimisation; the KD-tree branch of the code computes the same quantity). -/
def nnIndex (sqrt : K → K) (p : V2 K) (dst : List (V2 K)) : ℕ :=
  argminList (dst.map (fun q => norm2 sqrt (p - q)))

/-- Distance from `p` to its nearest neighbour in `dst`. -/
def nnDist (sqrt : K → K) (p : V2 K) (dst : List (V2 K)) : K :=
  (dst.map (fun q => norm2 sqrt (p - q))).getD (nnIndex sqrt p dst) 0

/-- The fixed RANSAC correspondence table `corr_dst = dst[nn0]` (lines
326-336): for every src point, its nearest dst point, computed once against
the initial untransformed src positions. -/
def corrTable (sqrt : K → K) (src dst : List (V2 K)) : List (V2 K) :=
  src.map (fun p => dst.getD (nnIndex sqrt p dst) 0)

/-- The candidate transform of one RANSAC iteration (lines 342-354): the
rigid/similarity estimate from the two sampled src points and their fixed
correspondences. -/
def candT (svd : M2 K → M2 K × V2 K × M2 K) (sqrt : K → K)
    (src corrDst : List (V2 K)) (allowScale : Bool) (pr : ℕ × ℕ) : M3 K :=
  let sSample := [src.getD pr.1 0, src.getD pr.2 0]
  let dSample := [corrDst.getD pr.1 0, corrDst.getD pr.2 0]
  if allowScale then (computeSimilarityTransform svd sqrt sSample dSample).1
  else (computeRigidTransform svd sqrt sSample dSample).1

/-- The scored distances of one RANSAC iteration (lines 356-359): the
candidate transform applied to every src point, measured against the fixed
correspondence table. -/
def candDists (svd : M2 K → M2 K × V2 K × M2 K) (sqrt : K → K)
    (src corrDst : List (V2 K)) (allowScale : Bool) (pr : ℕ × ℕ) : List K :=
  let T := candT svd sqrt src corrDst allowScale pr
  (src.zip corrDst).map (fun pq => norm2 sqrt ((linOf T).mulVec pq.1 + transOf T - pq.2))

/-- The inlier mask of one RANSAC iteration (`dists <= inlier_threshold`). -/
def candMask (svd : M2 K → M2 K × V2 K × M2 K) (sqrt : K → K)
    (src corrDst : List (V2 K)) (thr : K) (allowScale : Bool) (pr : ℕ × ℕ) : List Bool :=
  (candDists svd sqrt src corrDst allowScale pr).map (fun d => decide (d ≤ thr))

/-- One iteration of the RANSAC loop (lines 341-369): estimate from the
sample, score against the fixed table, skip if below `min_inliers`, otherwise
keep the best model by (inlier count, then mean inlier error). -/
def ransacStep (svd : M2 K → M2 K × V2 K × M2 K) (sqrt : K → K)
    (src corrDst : List (V2 K)) (thr : K) (allowScale : Bool) (minInliers : ℕ)
    (best : M3 K × EVal K × List Bool) (pr : ℕ × ℕ) : M3 K × EVal K × List Bool :=
  let dists := candDists svd sqrt src corrDst allowScale pr
  let inliers := dists.map (fun d => decide (d ≤ thr))
  let nIn := inliers.count true
  if nIn < minInliers then best
  else
    let meanErr := if 0 < nIn then
      EVal.val ((((dists.zip inliers).filter (fun db => db.2 = true)).map (fun db => db.1)).sum / (nIn : K))
      else EVal.inf
    if nIn > best.2.2.count true ∨ (nIn = best.2.2.count true ∧ EVal.blt meanErr best.2.1 = true)
    then (candT svd sqrt src corrDst allowScale pr, meanErr, inliers)
    else best

/-- Embedding of `ransac_global_fit` (lines 308-371).  The hidden unseeded
`np.random.default_rng()` draw sequence is made explicit as the list
`samples` of sampled index pairs (one pair per loop iteration, so
`samples.length` plays the role of `n_iter`). -/
def ransacGlobalFit (svd : M2 K → M2 K × V2 K × M2 K) (sqrt : K → K)
    (src dst : List (V2 K)) (samples : List (ℕ × ℕ)) (thr : K)
    (allowScale : Bool) (minInliers : ℕ) : M3 K × EVal K × List Bool :=
  if src.length < 2 ∨ dst.length < 2 then
    ((1 : M3 K), EVal.inf, List.replicate src.length false)
  else
    samples.foldl (ransacStep svd sqrt src (corrTable sqrt src dst) thr allowScale minInliers)
      ((1 : M3 K), EVal.inf, List.replicate src.length false)

/-- For each current src point: the point, its nearest-neighbour distance in
dst and the corresponding dst point (one ICP correspondence search). -/
def icpStepPairs (sqrt : K → K) (dst cur : List (V2 K)) : List (V2 K × K × V2 K) :=
  cur.map (fun p => (p, nnDist sqrt p dst, dst.getD (nnIndex sqrt p dst) 0))

/-- The ICP convergence test `abs(prev_error - mean_err) < tol`; any
comparison involving `float('inf')` is false. -/
def evalConvergedB (prev cur : EVal K) (tol : K) : Bool :=
  match prev, cur with
  | EVal.val a, EVal.val b => decide (|a - b| < tol)
  | _, _ => false

/-- The per-iteration transform estimation of `icp_rigid` (lines 288-291):
similarity when `allow_scale`, rigid otherwise. -/
def icpEstimate (svd : M2 K → M2 K × V2 K × M2 K) (sqrt : K → K)
    (allowScale : Bool) (srcIn dstIn : List (V2 K)) : M3 K × EVal K :=
  if allowScale then computeSimilarityTransform svd sqrt srcIn dstIn
  else computeRigidTransform svd sqrt srcIn dstIn

/-- The iteration loop of `icp_rigid` (lines 269-303), with the remaining
iteration budget as fuel. -/
def icpLoop (svd : M2 K → M2 K × V2 K × M2 K) (sqrt : K → K)
    (dst : List (V2 K)) (tol outThr : K) (allowScale : Bool) :
    ℕ → List (V2 K) → M3 K → EVal K → List (V2 K) × M3 K
  | 0, cur, totalT, _ => (cur, totalT)
  | Nat.succ fuel, cur, totalT, prevError =>
    let pairs := icpStepPairs sqrt dst cur
    let inliers := pairs.filter (fun x => decide (x.2.1 ≤ outThr))
    if inliers.length < 2 then (cur, totalT)
    else
      let srcIn := inliers.map (fun x => x.1)
      let dstIn := inliers.map (fun x => x.2.2)
      let Te := icpEstimate svd sqrt allowScale srcIn dstIn
      let cur2 := cur.map (fun p => (linOf Te.1).mulVec p + transOf Te.1)
      let total2 := Te.1 * totalT
      if evalConvergedB prevError Te.2 tol = true then (cur2, total2)
      else icpLoop svd sqrt dst tol outThr allowScale fuel cur2 total2 Te.2

/-- Embedding of `icp_rigid` (lines 249-305): returns the transformed src
cloud together with the accumulated total transform. -/
def icp_rigid (svd : M2 K → M2 K × V2 K × M2 K) (sqrt : K → K)
    (srcPts dstPts : List (V2 K)) (maxIter : ℕ) (tol outThr : K)
    (allowScale : Bool) : List (V2 K) × M3 K :=
  if srcPts.length < 2 ∨ dstPts.length < 2 then (srcPts, (1 : M3 K))
  else icpLoop svd sqrt dstPts tol outThr allowScale maxIter srcPts (1 : M3 K) EVal.inf

/-- Python `int()` on a nonnegative float: truncation = floor. -/
def pyTrunc (q : ℚ) : ℕ := (⌊q⌋).toNat

/-- Embedding of `segment_profile` (lines 148-169).  `len(contour) * 0.25`
is exact in binary floating point, so the product is modelled exactly. -/
def segment_profile {α : Type} (contour : List α) : Option (List α × List α) :=
  let numPointsForAnchor := max 10 (pyTrunc ((contour.length : ℚ) * (1 / 4)))
  let k := if 2 * numPointsForAnchor > contour.length then contour.length / 3
    else numPointsForAnchor
  if k = 0 then none
  else some (contour.take k, contour.drop (contour.length - k))

/-- The cyclic edge list of a point sequence treated as a closed polygon
(`p_i -> p_{i+1 mod n}`, the last edge wrapping back to the first point), as
`cv2.moments` traverses a contour. -/
def polyEdges (l : List (V2 K)) : List (V2 K × V2 K) := l.zip (l.drop 1 ++ l.take 1)

/-- Twice the signed (shoelace) area of the closed polygon on `l`. -/
def shoelace (l : List (V2 K)) : K :=
  ((polyEdges l).map (fun e => e.1 0 * e.2 1 - e.2 0 * e.1 1)).sum

/-- Green-theorem accumulator for the first x-moment of the polygon. -/
def shoelaceX (l : List (V2 K)) : K :=
  ((polyEdges l).map (fun e => (e.1 0 * e.2 1 - e.2 0 * e.1 1) * (e.1 0 + e.2 0))).sum

/-- Green-theorem accumulator for the first y-moment of the polygon. -/
def shoelaceY (l : List (V2 K)) : K :=
  ((polyEdges l).map (fun e => (e.1 0 * e.2 1 - e.2 0 * e.1 1) * (e.1 1 + e.2 1))).sum

/-- Model of `cv2.moments` on a contour (its documented Green-theorem polygon
semantics): returns `(m00, m10, m01)`.  OpenCV normalises the sign so that
`m00` is the absolute area, and leaves all moments zero when the signed area
vanishes. -/
def contourMoments (l : List (V2 K)) : K × K × K :=
  let a00 := shoelace l
  if a00 = 0 then (0, 0, 0)
  else if 0 < a00 then (a00 / 2, shoelaceX l / 6, shoelaceY l / 6)
  else (-a00 / 2, -shoelaceX l / 6, -shoelaceY l / 6)

/-- The translation `(dx, dy)` that `analyze_dent`'s piecewise fallback
computes for one anchor pair (lines 466-489): difference of the
`cv2.moments` centroids `(m10/m00, m01/m00)`, defaulting to `(0, 0)` when
either `m00` is zero. -/
def anchorTranslation (refA samp : List (V2 K)) : V2 K :=
  let Mp := contourMoments refA
  let Md := contourMoments samp
  if Mp.1 ≠ 0 ∧ Md.1 ≠ 0 then
    ![Mp.2.1 / Mp.1 - Md.2.1 / Md.1, Mp.2.2 / Mp.1 - Md.2.2 / Md.1]
  else ![0, 0]

/-- The area centroid of the closed polygon on `l` by the standard
Green-theorem formula (independent reference definition). -/
def polygonCentroid (l : List (V2 K)) : V2 K :=
  ![shoelaceX l / (3 * shoelace l), shoelaceY l / (3 * shoelace l)]

/-- The anchor translation the spec claims: difference of arithmetic
centroids of the two anchor subsets, `(0,0)` when a point count is zero. -/
def specAnchorTranslation (refA samp : List (V2 K)) : V2 K :=
  if refA.isEmpty ∨ samp.isEmpty then ![0, 0]
  else listMean refA - listMean samp

/-- The four alignment modes accepted by `analyze_dent`. -/
inductive AlignMode where
  | ransac | icp | piecewise | auto
deriving DecidableEq

/-- Which alignment path `analyze_dent` ends up applying. -/
inductive AlignPath where
  | ransacApplied | icpApplied | piecewiseFallback
deriving DecidableEq

/-- The orchestration decision of `analyze_dent` (lines 428-457), as a
function of the mode and of the RANSAC result's inlier count and mean inlier
error: `align_mode == 'piecewise'` raises and is caught by the piecewise
fallback; RANSAC is applied iff the mode requested it and
`inliers.sum() >= 20 and err_ransac < max(20.0, inlier_px)`; otherwise ICP
runs (`if not ransac_used and align_mode != 'piecewise'`). -/
def selectAlignPath (mode : AlignMode) (inlierCount : ℕ) (errRansac : EVal K)
    (inlierPx : K) : AlignPath :=
  if mode = AlignMode.piecewise then AlignPath.piecewiseFallback
  else if (mode = AlignMode.ransac ∨ mode = AlignMode.auto) ∧
      20 ≤ inlierCount ∧ EVal.ltR errRansac (max 20 inlierPx)
  then AlignPath.ransacApplied
  else AlignPath.icpApplied

/-- Python `round(x, 2)` (two-decimal presentation rounding; exact ties
between the two nearest hundredths are immaterial to the theorems below). -/
def round2 [FloorRing K] (x : K) : K := ((round (x * 100) : ℤ) : K) / 100

/-- Python `round(x, 1)`. -/
def round1 [FloorRing K] (x : K) : K := ((round (x * 10) : ℤ) : K) / 10

/-- `np.diff`: consecutive differences. -/
def npDiff (l : List K) : List K := List.zipWith (fun a b => b - a) l l.tail

/-- The consecutive segment lengths `np.hypot(np.diff(x), np.diff(y))` of a
polyline. -/
def polyArcDs (sqrt : K → K) (xs ys : List K) : List K :=
  List.zipWith (fun dx dy => sqrt (dx ^ 2 + dy ^ 2)) (npDiff xs) (npDiff ys)

/-- Total arc length of a polyline. -/
def polyArcLength (sqrt : K → K) (xs ys : List K) : K := (polyArcDs sqrt xs ys).sum

/-- `np.linspace(0.0, L, n)`. -/
def linspace (L : K) (n : ℕ) : List K :=
  (List.range n).map (fun i : ℕ => L * (i : K) / ((n : K) - 1))

/-- `np.interp(q, s, x)` for increasing knots `s` (paired as `(s_i, x_i)`):
piecewise-linear interpolation, clamped at the ends. -/
def npInterp (q : K) : List (K × K) → K
  | [] => 0
  | [(_, x0)] => x0
  | (s0, x0) :: (s1, x1) :: rest =>
    if q < s0 then x0
    else if q ≤ s1 then x0 + (q - s0) * (x1 - x0) / (s1 - s0)
    else npInterp q ((s1, x1) :: rest)

/-- Embedding of `_resample_polyline` (lines 681-694): resample a polyline to
`n` points uniformly in cumulative arc length; degenerate inputs are returned
unchanged with length 0. -/
def resamplePolyline (sqrt : K → K) (xs ys : List K) (n : ℕ) :
    List K × List K × K :=
  if xs.length < 2 then (xs, ys, 0)
  else
    let ds := polyArcDs sqrt xs ys
    let s := List.scanl (· + ·) 0 ds
    let totalLen := s.getLastD 0
    if totalLen = 0 then (xs, ys, 0)
    else
      let sNew := linspace totalLen n
      (sNew.map (fun q => npInterp q (s.zip xs)),
       sNew.map (fun q => npInterp q (s.zip ys)), totalLen)

/-- First index of the maximal element (`np.argmax`); auxiliary loop. -/
def argmaxAux : List K → ℕ → ℕ → K → ℕ
  | [], _, bi, _ => bi
  | x :: xs, i, bi, bv => if bv < x then argmaxAux xs (i + 1) i x else argmaxAux xs (i + 1) bi bv

/-- First index of the maximal element of a list (`np.argmax`); 0 on `[]`. -/
def argmaxList : List K → ℕ
  | [] => 0
  | x :: xs => argmaxAux xs 1 0 x

/-- `np.max` of a list (maximum of the elements, head-seeded fold). -/
def npMax (l : List K) : K := l.foldl max (l.headD 0)

/-- `np.percentile(a, q)` with the default linear interpolation method:
sort, take the fractional order statistic at rank `(n-1)*q/100`. -/
def npPercentile [FloorRing K] (l : List K) (q : K) : K :=
  let sorted := l.mergeSort (fun a b => decide (a ≤ b))
  let h := ((l.length : K) - 1) * q / 100
  let lo := (⌊h⌋).toNat
  sorted.getD lo 0 + (h - (lo : K)) * (sorted.getD (lo + 1) 0 - sorted.getD lo 0)

/-- The deviation metrics record built at lines 711-722. -/
structure DevMetrics (K : Type) where
  maxDev : K
  meanDev : K
  rmsDev : K
  p95Dev : K
  totalLen : K
  worstRefX : K
  worstRefY : K
  worstSampX : K
  worstSampY : K
  worstIdx : ℕ
deriving DecidableEq

/-- Embedding of the deviation-metric computation of `analyze_dent`
(lines 696-725): resample both curves to 300 points, truncate to the common
length, take per-index Euclidean deviations and aggregate. -/
def computeDeviationMetrics [FloorRing K] (sqrt : K → K)
    (xp yp xd yd : List K) : Option (DevMetrics K) :=
  let rp := resamplePolyline sqrt xp yp 300
  let rd := resamplePolyline sqrt xd yd 300
  let n := min rp.1.length rd.1.length
  if 1 < n then
    let xrp := rp.1.take n
    let yrp := rp.2.1.take n
    let xrd := rd.1.take n
    let yrd := rd.2.1.take n
    let deviations := ((xrp.zip yrp).zip (xrd.zip yrd)).map
      (fun pq => sqrt ((pq.1.1 - pq.2.1) ^ 2 + (pq.1.2 - pq.2.2) ^ 2))
    if 0 < deviations.length then
      let idxMax := argmaxList deviations
      some {
        maxDev := round2 (npMax deviations)
        meanDev := round2 ((deviations.map (fun d => |d|)).sum / (deviations.length : K))
        rmsDev := round2 (sqrt ((deviations.map (fun d => d ^ 2)).sum / (deviations.length : K)))
        p95Dev := round2 (npPercentile deviations 95)
        totalLen := round2 (max rp.2.2 rd.2.2)
        worstRefX := round1 (xrp.getD idxMax 0)
        worstRefY := round1 (yrp.getD idxMax 0)
        worstSampX := round1 (xrd.getD idxMax 0)
        worstSampY := round1 (yrd.getD idxMax 0)
        worstIdx := idxMax }
    else none
  else none

/-- Square-root oracle on `ℚ` used to instantiate the abstract `sqrt`
parameter in concrete evaluations: it is the exact square root on the perfect
squares that arise there (every concrete computation below only ever applies
it to one of the listed squares). -/
def sqrtW (q : ℚ) : ℚ :=
  if q = 0 then 0 else if q = 16 then 4 else if q = 25 then 5
  else if q = 36 then 6 else if q = 100 then 10 else if q = 256 then 16
  else if q = 400 then 20 else if q = 676 then 26 else if q = 900 then 30 else 0

/-- A concrete SVD oracle that is a genuine SVD at every nonnegative
descending diagonal matrix (all covariance matrices appearing in the
concrete evaluations below are of this shape). -/
def diagSvd (H : M2 K) : M2 K × V2 K × M2 K := ((1 : M2 K), ![H 0 0, H 1 1], (1 : M2 K))

/-- The anchor length rule as the spec must read to match the code: `int()`
truncation (floor) instead of `round`, i.e. `k0 = max 10 (N / 4)` in natural
division; the shrink and failure rules are unchanged. -/
def segmentSpecAmended {α : Type} (contour : List α) : Option (List α × List α) :=
  let k0 := max 10 (contour.length / 4)
  let k := if 2 * k0 > contour.length then contour.length / 3 else k0
  if k = 0 then none
  else some (contour.take k, contour.drop (contour.length - k))

theorem pyTrunc_quarter (N : ℕ) : pyTrunc ((N : ℚ) * (1 / 4)) = N / 4 := by
  unfold pyTrunc
  rw [show ((N : ℚ) * (1 / 4)) = (N : ℚ) / ((4 : ℕ) : ℚ) by push_cast; ring]
  rw [Int.floor_toNat, Nat.floor_div_nat, Nat.floor_natCast]

/-- Claim C6 (amended): for a contour of `N` points the anchor length is
`k = max(10, floor(0.25 N))` (Python `int()` truncation, not `round`);
if `2k > N` it shrinks to `N // 3`; if `k == 0` the function signals failure
(no anchors); otherwise the anchors are the first and last `k` points. -/
theorem segment_profile_floor_spec {α : Type} (contour : List α) :
    segment_profile contour = segmentSpecAmended contour := by
  unfold segment_profile segmentSpecAmended
  rw [pyTrunc_quarter]

/-- Claim C6 counterexample: on a 46-point contour the code's anchor length
is `max(10, int(46*0.25)) = 11`, while the claimed `max(10, round(0.25*46))`
is 12 — the top anchor has 11 points, not the claimed 12. -/
theorem segment_profile_not_round :
    segment_profile (List.range 46) =
      some ((List.range 46).take 11, (List.range 46).drop 35) ∧
    max 10 (round ((46 : ℚ) * (1 / 4))).toNat ≠ 11 := by
  constructor
  · rw [segment_profile_floor_spec]
    decide
  · have h2 : round ((46 : ℚ) * (1 / 4)) = 12 := by
      norm_num [round_eq]
    rw [h2]
    decide

/-- Claim C4: with `align_mode` in {ransac, auto}, the RANSAC result is
applied iff its inlier count is at least 20 and its mean inlier error is
strictly below `max(20, inlier_threshold)`; whenever the acceptance test
fails, ICP is run instead. -/
theorem align_orchestrator_acceptance (mode : AlignMode) (cnt : ℕ)
    (err : EVal K) (px : K) (h : mode = AlignMode.ransac ∨ mode = AlignMode.auto) :
    (selectAlignPath mode cnt err px = AlignPath.ransacApplied ↔
      20 ≤ cnt ∧ EVal.ltR err (max 20 px)) ∧
    (¬(20 ≤ cnt ∧ EVal.ltR err (max 20 px)) →
      selectAlignPath mode cnt err px = AlignPath.icpApplied) := by
  have hmp : ¬(mode = AlignMode.piecewise) := by
    rcases h with h | h <;> subst h <;> intro hc <;> cases hc
  unfold selectAlignPath
  rw [if_neg hmp]
  constructor
  · constructor
    · intro hsel
      by_contra hacc
      rw [if_neg (fun hc => hacc hc.2)] at hsel
      cases hsel
    · intro hacc
      rw [if_pos ⟨h, hacc⟩]
  · intro hacc
    rw [if_neg (fun hc => hacc hc.2)]

/-- Witness for C4 at mode `ransac`, 25 inliers, error 3, threshold 25. -/
theorem align_orchestrator_acceptance_witness :
    (AlignMode.ransac = AlignMode.ransac ∨ AlignMode.ransac = AlignMode.auto) ∧
    ((selectAlignPath AlignMode.ransac 25 (EVal.val (3 : ℚ)) 25 = AlignPath.ransacApplied ↔
      20 ≤ 25 ∧ EVal.ltR (EVal.val (3 : ℚ)) (max 20 25)) ∧
    (¬(20 ≤ 25 ∧ EVal.ltR (EVal.val (3 : ℚ)) (max 20 25)) →
      selectAlignPath AlignMode.ransac 25 (EVal.val (3 : ℚ)) 25 = AlignPath.icpApplied)) :=
  ⟨Or.inl rfl, align_orchestrator_acceptance AlignMode.ransac 25 (EVal.val 3) 25 (Or.inl rfl)⟩

/-- Claim C5 (amended): each anchor translation is the difference of the
Green-theorem polygon centroids that `cv2.moments` computes on the anchor
sequences treated as closed polygons, and it defaults to `(0, 0)` exactly
when either polygon's signed area vanishes (in particular for empty
anchors). -/
theorem contourMoments_centroid (l : List (V2 K)) (h : shoelace l ≠ 0) :
    (contourMoments l).1 ≠ 0 ∧
    (contourMoments l).2.1 / (contourMoments l).1 = shoelaceX l / (3 * shoelace l) ∧
    (contourMoments l).2.2 / (contourMoments l).1 = shoelaceY l / (3 * shoelace l) := by
  unfold contourMoments
  rw [if_neg h]
  rcases lt_or_gt_of_ne h with hl | hl
  · rw [if_neg (not_lt.mpr hl.le)]
    refine ⟨by simpa using h, ?_, ?_⟩ <;>
      · show -_ / 6 / (-_ / 2) = _
        rw [div_div_div_eq]
        rw [div_eq_div_iff (by simpa using fun hc => h hc) (by positivity)]
        ring
  · rw [if_pos hl]
    refine ⟨by simpa using h, ?_, ?_⟩ <;>
      · show _ / 6 / (_ / 2) = _
        rw [div_div_div_eq]
        rw [div_eq_div_iff (by simpa using fun hc => h hc) (by positivity)]
        ring

theorem anchor_translation_polygon_centroid (refA samp : List (V2 K)) :
    anchorTranslation refA samp =
      if shoelace refA ≠ 0 ∧ shoelace samp ≠ 0
      then polygonCentroid refA - polygonCentroid samp
      else ![0, 0] := by
  by_cases h1 : shoelace refA = 0
  · have hm : (contourMoments refA).1 = 0 := by unfold contourMoments; rw [if_pos h1]
    unfold anchorTranslation
    rw [if_neg (fun hc => hc.1 hm), if_neg (fun hc => hc.1 h1)]
  · by_cases h2 : shoelace samp = 0
    · have hm : (contourMoments samp).1 = 0 := by unfold contourMoments; rw [if_pos h2]
      unfold anchorTranslation
      rw [if_neg (fun hc => hc.2 hm), if_neg (fun hc => hc.2 h2)]
    · obtain ⟨hr0, hrx, hry⟩ := contourMoments_centroid refA h1
      obtain ⟨hs0, hsx, hsy⟩ := contourMoments_centroid samp h2
      unfold anchorTranslation
      rw [if_pos ⟨hr0, hs0⟩, if_pos ⟨h1, h2⟩]
      unfold polygonCentroid
      funext i
      fin_cases i
      · simp [Pi.sub_apply, hrx, hsx]
      · simp [Pi.sub_apply, hry, hsy]

/-- Claim C5 counterexample: for the anchor pair below (a pentagon with one
collinear vertex against a square), the code's `cv2.moments`-based
translation is `(1, 1)` while the claimed difference of arithmetic centroids
is `(2/5, 1)`. -/
theorem anchor_translation_not_arithmetic_centroid :
    anchorTranslation (K := ℚ)
        [![0, 0], ![6, 0], ![6, 6], ![0, 6], ![0, 3]]
        [![0, 0], ![4, 0], ![4, 4], ![0, 4]] ≠
      specAnchorTranslation
        [![0, 0], ![6, 0], ![6, 6], ![0, 6], ![0, 3]]
        [![0, 0], ![4, 0], ![4, 4], ![0, 4]] := by
  intro h
  have h0 := congrFun h 0
  simp only [anchorTranslation, specAnchorTranslation, contourMoments, shoelace,
    shoelaceX, shoelaceY, polyEdges, listMean, List.drop, List.take,
    List.append_nil, List.nil_append, List.cons_append, List.zip_cons_cons,
    List.zip_nil_right, List.map_cons, List.map_nil, List.sum_cons,
    List.sum_nil, List.length_cons, List.length_nil, List.isEmpty_cons] at h0
  norm_num [Matrix.cons_val_zero, Matrix.cons_val_one, Matrix.head_cons,
    Pi.sub_apply, Pi.add_apply, Pi.smul_apply, Pi.zero_apply] at h0

/-- Claim C1: the nearest-neighbour correspondence table is built once from
the initial untransformed src positions, before the sampling loop, and dst is
never requeried afterwards: once both clouds reach the sampling loop, the
whole RANSAC output depends on `dst` only through that fixed table. -/
theorem ransac_correspondence_table_fixed (svd : M2 K → M2 K × V2 K × M2 K)
    (sqrt : K → K) (src dst dst2 : List (V2 K)) (samples : List (ℕ × ℕ))
    (thr : K) (allowScale : Bool) (minInliers : ℕ)
    (hs : 2 ≤ src.length) (hd : 2 ≤ dst.length) (hd2 : 2 ≤ dst2.length)
    (htab : corrTable sqrt src dst = corrTable sqrt src dst2) :
    ransacGlobalFit svd sqrt src dst samples thr allowScale minInliers =
      ransacGlobalFit svd sqrt src dst2 samples thr allowScale minInliers := by
  unfold ransacGlobalFit
  rw [if_neg (by push_neg; exact ⟨hs, hd⟩), if_neg (by push_neg; exact ⟨hs, hd2⟩), htab]

/-- Witness for C1: two distinct dst clouds (one a permutation of the other)
with the same correspondence table give identical RANSAC outputs. -/
theorem ransac_correspondence_table_fixed_witness :
    2 ≤ ([![0, 0], ![4, 0]] : List (V2 ℚ)).length ∧
    2 ≤ ([![0, 0], ![10, 0]] : List (V2 ℚ)).length ∧
    2 ≤ ([![10, 0], ![0, 0]] : List (V2 ℚ)).length ∧
    corrTable sqrtW [![0, 0], ![4, 0]] [![0, 0], ![10, 0]] =
      corrTable sqrtW [![0, 0], ![4, 0]] [![10, 0], ![0, 0]] ∧
    ransacGlobalFit diagSvd sqrtW [![0, 0], ![4, 0]] [![0, 0], ![10, 0]] [(0, 1)] 5 false 1 =
      ransacGlobalFit diagSvd sqrtW [![0, 0], ![4, 0]] [![10, 0], ![0, 0]] [(0, 1)] 5 false 1 := by
  have htab : corrTable sqrtW [![0, 0], ![4, 0]] [![0, 0], ![10, 0]] =
      corrTable sqrtW [![0, 0], ![4, 0]] [![10, 0], ![0, 0]] := by
    norm_num [corrTable, nnIndex, argminList, argminAux, norm2, sqrtW,
      Matrix.cons_val_zero, Matrix.cons_val_one, Matrix.head_cons, Pi.sub_apply]
  exact ⟨by norm_num, by norm_num, by norm_num, htab,
    ransac_correspondence_table_fixed diagSvd sqrtW _ _ _ [(0, 1)] 5 false 1
      (by norm_num) (by norm_num) (by norm_num) htab⟩

theorem ransac_fold_skip (svd : M2 K → M2 K × V2 K × M2 K) (sqrt : K → K)
    (src corr : List (V2 K)) (thr : K) (aS : Bool) (minIn : ℕ) :
    ∀ (samples : List (ℕ × ℕ)) (best : M3 K × EVal K × List Bool),
    (∀ pr ∈ samples, (candMask svd sqrt src corr thr aS pr).count true < minIn) →
    samples.foldl (ransacStep svd sqrt src corr thr aS minIn) best = best := by
  intro samples
  induction samples with
  | nil => intro best _; rfl
  | cons pr rest ih =>
    intro best h
    rw [List.foldl_cons]
    have hstep : ransacStep svd sqrt src corr thr aS minIn best pr = best := by
      have hc := h pr (List.mem_cons_self _ _)
      simp only [candMask] at hc
      simp only [ransacStep]
      rw [if_pos hc]
    rw [hstep]
    exact ih best (fun p hp => h p (List.mem_cons_of_mem _ hp))

/-- Claim C7: if src or dst has fewer than 2 points, or no sampled candidate
reaches `min_inliers` inliers, `ransac_global_fit` returns the identity
transform, an infinite error, and an all-false mask of src's length
(and, being total, it raises nothing). -/
theorem ransac_degenerate_returns_default (svd : M2 K → M2 K × V2 K × M2 K)
    (sqrt : K → K) (src dst : List (V2 K)) (samples : List (ℕ × ℕ))
    (thr : K) (allowScale : Bool) (minInliers : ℕ)
    (h : src.length < 2 ∨ dst.length < 2 ∨
      ∀ pr ∈ samples,
        (candMask svd sqrt src (corrTable sqrt src dst) thr allowScale pr).count true < minInliers) :
    ransacGlobalFit svd sqrt src dst samples thr allowScale minInliers =
      ((1 : M3 K), EVal.inf, List.replicate src.length false) := by
  unfold ransacGlobalFit
  rcases h with h | h | h
  · rw [if_pos (Or.inl h)]
  · rw [if_pos (Or.inr h)]
  · by_cases hg : src.length < 2 ∨ dst.length < 2
    · rw [if_pos hg]
    · rw [if_neg hg]
      exact ransac_fold_skip svd sqrt src (corrTable sqrt src dst) thr allowScale
        minInliers samples _ h

/-- Witness for C7: with `min_inliers = 3` and only two src points no
candidate can be accepted, so the default result is returned. -/
theorem ransac_degenerate_returns_default_witness :
    (([![0, 0], ![4, 0]] : List (V2 ℚ)).length < 2 ∨
      ([![0, 0], ![4, 0]] : List (V2 ℚ)).length < 2 ∨
      ∀ pr ∈ [((0 : ℕ), (1 : ℕ))],
        (candMask diagSvd sqrtW [![0, 0], ![4, 0]]
          (corrTable sqrtW [![0, 0], ![4, 0]] [![0, 0], ![4, 0]]) 5 false pr).count true < 3) ∧
    ransacGlobalFit diagSvd sqrtW [![0, 0], ![4, 0]] [![0, 0], ![4, 0]] [(0, 1)] 5 false 3 =
      ((1 : M3 ℚ), EVal.inf, List.replicate 2 false) := by
  have hyp : ∀ pr ∈ [((0 : ℕ), (1 : ℕ))],
      (candMask diagSvd sqrtW [![0, 0], ![4, 0]]
        (corrTable sqrtW [![0, 0], ![4, 0]] [![0, 0], ![4, 0]]) 5 false pr).count true < 3 := by
    intro pr _
    have hle := List.count_le_length true
      (candMask diagSvd sqrtW [![0, 0], ![4, 0]]
        (corrTable sqrtW [![0, 0], ![4, 0]] [![0, 0], ![4, 0]]) 5 false pr)
    have hl : (candMask diagSvd sqrtW [![0, 0], ![4, 0]]
        (corrTable sqrtW [![0, 0], ![4, 0]] [![0, 0], ![4, 0]]) 5 false pr).length = 2 := by
      simp [candMask, candDists, corrTable]
    omega
  refine ⟨Or.inr (Or.inr hyp), ?_⟩
  have := ransac_degenerate_returns_default diagSvd sqrtW
    [![0, 0], ![4, 0]] [![0, 0], ![4, 0]] [(0, 1)] 5 false 3 (Or.inr (Or.inr hyp))
  simpa using this

theorem flipRot_one_one : flipRot (1 : M2 K) 1 = 1 := by
  unfold flipRot
  rw [Matrix.transpose_one, Matrix.one_mul, Matrix.det_one, if_neg (by norm_num)]

theorem linOf_mkT (A : M2 K) (t : V2 K) : linOf (mkT A t) = A := by
  unfold linOf mkT
  ext i j
  fin_cases i <;> fin_cases j <;> simp [Matrix.of_apply]

theorem transOf_mkT (A : M2 K) (t : V2 K) : transOf (mkT A t) = t := by
  unfold transOf mkT
  funext i
  fin_cases i <;> simp [Matrix.of_apply]

theorem ransacC3_HA : rigidHOf (K := ℚ) [![0, 0], ![4, 0]] [![0, 0], ![4, 0]] =
    Matrix.of ![![8, 0], ![0, 0]] := by
  ext i j
  fin_cases i <;> fin_cases j <;>
    norm_num [rigidHOf, crossCov, centeredList, listMean, Matrix.vecMulVec_apply,
      Matrix.add_apply, Matrix.zero_apply, Matrix.of_apply, Pi.sub_apply,
      Pi.smul_apply, Pi.add_apply, Pi.zero_apply, Matrix.cons_val_zero,
      Matrix.cons_val_one, Matrix.head_cons]

theorem ransacC3_estA :
    (computeRigidTransform (K := ℚ) diagSvd sqrtW [![0, 0], ![4, 0]] [![0, 0], ![4, 0]]).1 =
      mkT 1 ![0, 0] := by
  have hsvd : diagSvd (K := ℚ) (Matrix.of ![![8, 0], ![0, 0]]) = (1, ![8, 0], 1) := by
    unfold diagSvd
    refine Prod.ext rfl (Prod.ext ?_ rfl)
    funext i
    fin_cases i <;> norm_num [Matrix.of_apply]
  simp only [computeRigidTransform, ransacC3_HA, hsvd]
  rw [if_neg (by norm_num)]
  show mkT (flipRot 1 1) _ = _
  rw [flipRot_one_one, Matrix.one_mulVec, sub_self,
    show (![0, 0] : V2 ℚ) = 0 by funext i; fin_cases i <;> rfl]

theorem ransacC3_estB :
    (computeRigidTransform (K := ℚ) diagSvd sqrtW [![0, 0], ![20, 0]] [![0, 0], ![30, 0]]).1 =
      mkT 1 ![5, 0] := by
  have hH : rigidHOf (K := ℚ) [![0, 0], ![20, 0]] [![0, 0], ![30, 0]] =
      Matrix.of ![![300, 0], ![0, 0]] := by
    ext i j
    fin_cases i <;> fin_cases j <;>
      norm_num [rigidHOf, crossCov, centeredList, listMean, Matrix.vecMulVec_apply,
        Matrix.add_apply, Matrix.zero_apply, Matrix.of_apply, Pi.sub_apply,
        Pi.smul_apply, Pi.add_apply, Pi.zero_apply, Matrix.cons_val_zero,
        Matrix.cons_val_one, Matrix.head_cons]
  have hsvd : diagSvd (K := ℚ) (Matrix.of ![![300, 0], ![0, 0]]) = (1, ![300, 0], 1) := by
    unfold diagSvd
    refine Prod.ext rfl (Prod.ext ?_ rfl)
    funext i
    fin_cases i <;> norm_num [Matrix.of_apply]
  simp only [computeRigidTransform, hH, hsvd]
  rw [if_neg (by norm_num)]
  show mkT (flipRot 1 1) _ = _
  rw [flipRot_one_one, Matrix.one_mulVec,
    show listMean (K := ℚ) [![0, 0], ![30, 0]] - listMean (K := ℚ) [![0, 0], ![20, 0]] =
        ![5, 0] by
      funext i
      fin_cases i <;>
        norm_num [listMean, Pi.sub_apply, Pi.smul_apply, Pi.add_apply, Pi.zero_apply,
          Matrix.cons_val_zero, Matrix.cons_val_one, Matrix.head_cons]]

theorem ransacC3_candTA :
    candT (K := ℚ) diagSvd sqrtW [![0, 0], ![4, 0], ![20, 0]] [![0, 0], ![4, 0], ![30, 0]]
      false (0, 1) = mkT 1 ![0, 0] := by
  simp only [candT, List.getD_cons_zero, List.getD_cons_succ]
  norm_num
  exact ransacC3_estA

theorem ransacC3_candTB :
    candT (K := ℚ) diagSvd sqrtW [![0, 0], ![4, 0], ![20, 0]] [![0, 0], ![4, 0], ![30, 0]]
      false (0, 2) = mkT 1 ![5, 0] := by
  simp only [candT, List.getD_cons_zero, List.getD_cons_succ]
  norm_num
  exact ransacC3_estB

theorem ransacC3_distsA :
    candDists (K := ℚ) diagSvd sqrtW [![0, 0], ![4, 0], ![20, 0]] [![0, 0], ![4, 0], ![30, 0]]
      false (0, 1) = [0, 0, 10] := by
  simp only [candDists, ransacC3_candTA, linOf_mkT, transOf_mkT, Matrix.one_mulVec]
  norm_num [norm2, sqrtW, List.zip_cons_cons, Pi.sub_apply, Pi.add_apply,
    Matrix.cons_val_zero, Matrix.cons_val_one, Matrix.head_cons]

theorem ransacC3_distsB :
    candDists (K := ℚ) diagSvd sqrtW [![0, 0], ![4, 0], ![20, 0]] [![0, 0], ![4, 0], ![30, 0]]
      false (0, 2) = [5, 5, 5] := by
  simp only [candDists, ransacC3_candTB, linOf_mkT, transOf_mkT, Matrix.one_mulVec]
  norm_num [norm2, sqrtW, List.zip_cons_cons, Pi.sub_apply, Pi.add_apply,
    Matrix.cons_val_zero, Matrix.cons_val_one, Matrix.head_cons]

theorem ransacC3_corr :
    corrTable sqrtW [![0, 0], ![4, 0], ![20, 0]] [![0, 0], ![4, 0], ![30, 0]] =
      [![0, 0], ![4, 0], ![30, 0]] := by
  norm_num [corrTable, nnIndex, argminList, argminAux, norm2, sqrtW,
    Matrix.cons_val_zero, Matrix.cons_val_one, Matrix.head_cons, Pi.sub_apply]

theorem ransacC3_maskA :
    List.map (fun d => decide (d ≤ (5 : ℚ))) [0, 0, 10] = [true, true, false] := by
  norm_num [decide_eq_true_eq, decide_eq_false_iff_not]

theorem ransacC3_maskB :
    List.map (fun d => decide (d ≤ (5 : ℚ))) [5, 5, 5] = [true, true, true] := by
  norm_num [decide_eq_true_eq]

theorem ransacC3_runA :
    (ransacGlobalFit (K := ℚ) diagSvd sqrtW [![0, 0], ![4, 0], ![20, 0]]
      [![0, 0], ![4, 0], ![30, 0]] [(0, 1)] 5 false 2).2.2 = [true, true, false] := by
  unfold ransacGlobalFit
  rw [if_neg (by norm_num), ransacC3_corr, List.foldl_cons, List.foldl_nil]
  simp only [ransacStep, ransacC3_distsA, ransacC3_maskA]
  norm_num [List.count_cons, List.replicate]

theorem ransacC3_runB :
    (ransacGlobalFit (K := ℚ) diagSvd sqrtW [![0, 0], ![4, 0], ![20, 0]]
      [![0, 0], ![4, 0], ![30, 0]] [(0, 2)] 5 false 2).2.2 = [true, true, true] := by
  unfold ransacGlobalFit
  rw [if_neg (by norm_num), ransacC3_corr, List.foldl_cons, List.foldl_nil]
  simp only [ransacStep, ransacC3_distsB, ransacC3_maskB]
  norm_num [List.count_cons, List.replicate]

/-- Claim C3 (code bug): `ransac_global_fit` takes no random source
parameter; it constructs `np.random.default_rng()` internally with fresh
entropy (line 338).  Making the hidden draw sequence explicit, two runs on
the very same inputs that differ only in those hidden draws produce
different outputs (different best transform, error and inlier mask), so the
spec's reproducibility requirement fails on the code. -/
theorem ransac_hidden_rng_changes_output :
    ransacGlobalFit (K := ℚ) diagSvd sqrtW [![0, 0], ![4, 0], ![20, 0]]
        [![0, 0], ![4, 0], ![30, 0]] [(0, 1)] 5 false 2 ≠
      ransacGlobalFit (K := ℚ) diagSvd sqrtW [![0, 0], ![4, 0], ![20, 0]]
        [![0, 0], ![4, 0], ![30, 0]] [(0, 2)] 5 false 2 := by
  intro h
  have hA := ransacC3_runA
  rw [h, ransacC3_runB] at hA
  exact absurd hA (by simp)

theorem linOf_one : linOf (1 : M3 K) = 1 := by
  unfold linOf
  ext i j
  fin_cases i <;> fin_cases j <;> simp [Matrix.one_apply]

theorem transOf_one : transOf (1 : M3 K) = 0 := by
  unfold transOf
  funext i
  fin_cases i <;> simp [Matrix.one_apply]

theorem applyT_one (p : V2 K) : applyT (1 : M3 K) p = p := by
  unfold applyT
  rw [linOf_one, transOf_one, Matrix.one_mulVec, add_zero]

theorem bottomRowP_one : bottomRowP (1 : M3 K) := by
  refine ⟨?_, ?_, ?_⟩ <;> simp [Matrix.one_apply]

theorem bottomRowP_mkT (A : M2 K) (t : V2 K) : bottomRowP (mkT A t) :=
  ⟨rfl, rfl, rfl⟩

theorem bottomRowP_mul (T1 T2 : M3 K) (h1 : bottomRowP T1) (h2 : bottomRowP T2) :
    bottomRowP (T1 * T2) := by
  obtain ⟨a1, b1, c1⟩ := h1
  obtain ⟨a2, b2, c2⟩ := h2
  refine ⟨?_, ?_, ?_⟩ <;>
    simp [Matrix.mul_apply, Fin.sum_univ_three, a1, b1, c1, a2, b2, c2]

theorem applyT_mul (T1 T2 : M3 K) (h2 : bottomRowP T2) (p : V2 K) :
    applyT (T1 * T2) p = applyT T1 (applyT T2 p) := by
  obtain ⟨a2, b2, c2⟩ := h2
  unfold applyT linOf transOf
  funext i
  fin_cases i <;>
    simp [Matrix.mulVec, Matrix.dotProduct, Matrix.mul_apply, Fin.sum_univ_two,
      Fin.sum_univ_three, Matrix.of_apply, Pi.add_apply, a2, b2, c2,
      Matrix.cons_val_zero, Matrix.cons_val_one, Matrix.head_cons] <;> ring

theorem computeRigid_bottomRow (svd : M2 K → M2 K × V2 K × M2 K) (sqrt : K → K)
    (src dst : List (V2 K)) : bottomRowP (computeRigidTransform svd sqrt src dst).1 := by
  unfold computeRigidTransform
  split
  · exact bottomRowP_one
  · exact bottomRowP_mkT _ _

theorem computeSim_bottomRow (svd : M2 K → M2 K × V2 K × M2 K) (sqrt : K → K)
    (src dst : List (V2 K)) : bottomRowP (computeSimilarityTransform svd sqrt src dst).1 := by
  unfold computeSimilarityTransform
  split
  · exact bottomRowP_one
  · exact bottomRowP_mkT _ _

theorem icpEstimate_bottomRow (svd : M2 K → M2 K × V2 K × M2 K) (sqrt : K → K)
    (aS : Bool) (a b : List (V2 K)) : bottomRowP (icpEstimate svd sqrt aS a b).1 := by
  unfold icpEstimate
  split
  · exact computeSim_bottomRow svd sqrt a b
  · exact computeRigid_bottomRow svd sqrt a b

theorem icpLoop_invariant (svd : M2 K → M2 K × V2 K × M2 K) (sqrt : K → K)
    (dst : List (V2 K)) (tol outThr : K) (aS : Bool) (src : List (V2 K)) :
    ∀ (fuel : ℕ) (cur : List (V2 K)) (totalT : M3 K) (prev : EVal K),
    bottomRowP totalT → cur = src.map (fun p => applyT totalT p) →
    bottomRowP (icpLoop svd sqrt dst tol outThr aS fuel cur totalT prev).2 ∧
    (icpLoop svd sqrt dst tol outThr aS fuel cur totalT prev).1 =
      src.map (fun p => applyT (icpLoop svd sqrt dst tol outThr aS fuel cur totalT prev).2 p) := by
  intro fuel
  induction fuel with
  | zero => intro cur totalT prev hb hc; exact ⟨hb, hc⟩
  | succ fuel ih =>
    intro cur totalT prev hb hc
    simp only [icpLoop]
    by_cases h1 :
      (List.filter (fun x => decide (x.2.1 ≤ outThr)) (icpStepPairs sqrt dst cur)).length < 2
    · rw [if_pos h1]
      exact ⟨hb, hc⟩
    · rw [if_neg h1]
      set inl := List.filter (fun x => decide (x.2.1 ≤ outThr)) (icpStepPairs sqrt dst cur)
        with hinl
      set Te := icpEstimate svd sqrt aS (List.map (fun x => x.1) inl)
        (List.map (fun x => x.2.2) inl) with hTe
      have hTb : bottomRowP Te.1 := icpEstimate_bottomRow svd sqrt aS _ _
      have hb2 : bottomRowP (Te.1 * totalT) := bottomRowP_mul _ _ hTb hb
      have hc2 : List.map (fun p => (linOf Te.1).mulVec p + transOf Te.1) cur =
          src.map (fun p => applyT (Te.1 * totalT) p) := by
        rw [hc, List.map_map]
        exact congrArg (fun f => List.map f src)
          (funext fun p => (applyT_mul Te.1 totalT hb p).symm)
      by_cases h2 : evalConvergedB prev Te.2 tol = true
      · rw [if_pos h2]
        exact ⟨hb2, hc2⟩
      · rw [if_neg h2]
        exact ih _ _ _ hb2 hc2

/-- Claim C10: `icp_rigid` maintains the invariant that the current
transformed cloud is the accumulated total transform applied to the original
src points; in particular the returned pair `(transformed_src, T)` satisfies
`transformed_src_i = T[0:2,0:2] @ src_i + T[0:2,2]` for every index. -/
theorem icp_accumulated_transform_invariant (svd : M2 K → M2 K × V2 K × M2 K)
    (sqrt : K → K) (src dst : List (V2 K)) (maxIter : ℕ) (tol outThr : K)
    (aS : Bool) :
    (icp_rigid svd sqrt src dst maxIter tol outThr aS).1 =
      src.map (fun p => applyT (icp_rigid svd sqrt src dst maxIter tol outThr aS).2 p) := by
  unfold icp_rigid
  split
  · simp [applyT_one]
  · exact (icpLoop_invariant svd sqrt dst tol outThr aS src maxIter src 1 EVal.inf
      bottomRowP_one (by simp [applyT_one])).2

theorem getLastD_irrel {α : Type} (l : List α) (h : l ≠ []) (d1 d2 : α) :
    l.getLastD d1 = l.getLastD d2 := by
  cases l with
  | nil => exact absurd rfl h
  | cons x xs => rw [List.getLastD_cons, List.getLastD_cons]

theorem scanl_add_getLastD (l : List K) :
    ∀ a : K, (List.scanl (· + ·) a l).getLastD 0 = a + l.sum := by
  induction l with
  | nil => intro a; simp
  | cons x xs ih =>
    intro a
    rw [List.scanl_cons, List.singleton_append, List.getLastD_cons]
    have hne : List.scanl (· + ·) (a + x) xs ≠ [] := by
      cases xs <;> simp [List.scanl_cons]
    rw [getLastD_irrel _ hne a 0, ih (a + x), List.sum_cons]
    ring

theorem resample_pos (sqrt : K → K) (xs ys : List K) (h2 : 2 ≤ xs.length)
    (hL : polyArcLength sqrt xs ys ≠ 0) :
    resamplePolyline sqrt xs ys 300 =
      ((linspace (polyArcLength sqrt xs ys) 300).map
          (fun q => npInterp q ((List.scanl (· + ·) 0 (polyArcDs sqrt xs ys)).zip xs)),
       (linspace (polyArcLength sqrt xs ys) 300).map
          (fun q => npInterp q ((List.scanl (· + ·) 0 (polyArcDs sqrt xs ys)).zip ys)),
       polyArcLength sqrt xs ys) := by
  simp only [resamplePolyline]
  have hlast : (List.scanl (· + ·) (0 : K) (polyArcDs sqrt xs ys)).getLastD 0 =
      polyArcLength sqrt xs ys := by
    rw [scanl_add_getLastD]
    unfold polyArcLength
    ring
  rw [if_neg (by omega), hlast, if_neg hL]

theorem zip_self_map_dev (sqrt : K → K) (hsq : sqrt 0 = 0) (l : List (K × K)) :
    ((l.zip l).map (fun pq => sqrt ((pq.1.1 - pq.2.1) ^ 2 + (pq.1.2 - pq.2.2) ^ 2))) =
      List.replicate l.length 0 := by
  induction l with
  | nil => rfl
  | cons x xs ih =>
    rw [List.zip_cons_cons, List.map_cons, ih, List.length_cons, List.replicate_succ]
    simp [hsq]

theorem foldl_max_replicate_zero : ∀ n : ℕ, List.foldl max (0 : K) (List.replicate n 0) = 0
  | 0 => rfl
  | n + 1 => by
    rw [List.replicate_succ, List.foldl_cons, max_self]
    exact foldl_max_replicate_zero n

theorem npMax_replicate_zero (n : ℕ) : npMax (List.replicate n (0 : K)) = 0 := by
  unfold npMax
  cases n with
  | zero => rfl
  | succ n =>
    rw [List.replicate_succ, List.headD_cons, List.foldl_cons, max_self]
    exact foldl_max_replicate_zero n

theorem getD_all_zero (l : List K) (h : ∀ x ∈ l, x = 0) (i : ℕ) : l.getD i 0 = 0 := by
  rw [List.getD_eq_getElem?_getD]
  cases he : l[i]? with
  | none => rfl
  | some x => simpa using h x (List.getElem?_mem he)

theorem npPercentile_replicate_zero [FloorRing K] (n : ℕ) (q : K) :
    npPercentile (List.replicate n (0 : K)) q = 0 := by
  simp only [npPercentile]
  have hz : ∀ i : ℕ,
      ((List.replicate n (0 : K)).mergeSort (fun a b => decide (a ≤ b))).getD i 0 = 0 := by
    intro i
    refine getD_all_zero _ ?_ i
    intro x hx
    have hx2 : x ∈ List.replicate n (0 : K) :=
      (List.mergeSort_perm (List.replicate n (0 : K)) _).mem_iff.mp hx
    exact List.eq_of_mem_replicate hx2
  rw [hz, hz]
  ring

theorem round2_zero [FloorRing K] : round2 (0 : K) = 0 := by
  unfold round2
  rw [zero_mul, round_zero]
  simp

/-- Claim C9: for every curve with at least 2 points and positive arc
length, the deviation-metric computation on two identical copies of the
curve yields max, mean, RMS and 95th-percentile deviations all equal to
zero, with the reported total profile length equal to the rounded common
arc length. -/
theorem deviation_metrics_identical_curves [FloorRing K] (sqrt : K → K)
    (hsq : sqrt 0 = 0) (xs ys : List K) (hlen : 2 ≤ xs.length)
    (hpos : 0 < polyArcLength sqrt xs ys) :
    ∃ m, computeDeviationMetrics sqrt xs ys xs ys = some m ∧
      m.maxDev = 0 ∧ m.meanDev = 0 ∧ m.rmsDev = 0 ∧ m.p95Dev = 0 ∧
      m.totalLen = round2 (polyArcLength sqrt xs ys) := by
  have hr := resample_pos sqrt xs ys hlen (ne_of_gt hpos)
  have hXlen : ((linspace (polyArcLength sqrt xs ys) 300).map
      (fun q => npInterp q ((List.scanl (· + ·) 0 (polyArcDs sqrt xs ys)).zip xs))).length
      = 300 := by
    simp only [linspace, List.length_map, List.length_range]
  have hYlen : ((linspace (polyArcLength sqrt xs ys) 300).map
      (fun q => npInterp q ((List.scanl (· + ·) 0 (polyArcDs sqrt xs ys)).zip ys))).length
      = 300 := by
    simp only [linspace, List.length_map, List.length_range]
  simp only [computeDeviationMetrics, hr, min_self]
  rw [hXlen]
  rw [if_pos (by norm_num : (1 : ℕ) < 300)]
  rw [List.take_of_length_le (le_of_eq hXlen), List.take_of_length_le (le_of_eq hYlen),
    zip_self_map_dev sqrt hsq, List.length_zip, hXlen, hYlen, min_self]
  rw [if_pos (by rw [List.length_replicate]; norm_num : 0 < (List.replicate 300 (0 : K)).length)]
  refine ⟨_, rfl, ?_, ?_, ?_, ?_, ?_⟩
  · show round2 (npMax (List.replicate 300 (0 : K))) = 0
    rw [npMax_replicate_zero, round2_zero]
  · show round2 ((List.map (fun d => |d|) (List.replicate 300 (0 : K))).sum /
      ((List.replicate 300 (0 : K)).length : K)) = 0
    rw [List.map_replicate, abs_zero, List.sum_replicate, smul_zero, zero_div, round2_zero]
  · show round2 (sqrt ((List.map (fun d => d ^ 2) (List.replicate 300 (0 : K))).sum /
      ((List.replicate 300 (0 : K)).length : K))) = 0
    rw [List.map_replicate, show ((0 : K) ^ 2) = 0 from by norm_num, List.sum_replicate,
      smul_zero, zero_div, hsq, round2_zero]
  · show round2 (npPercentile (List.replicate 300 (0 : K)) 95) = 0
    rw [npPercentile_replicate_zero, round2_zero]
  · show round2 (max (polyArcLength sqrt xs ys) (polyArcLength sqrt xs ys)) =
      round2 (polyArcLength sqrt xs ys)
    rw [max_self]

/-- Witness for C9 on the two-point curve (0,0)-(3,4) of arc length 5. -/
theorem deviation_metrics_identical_curves_witness :
    sqrtW 0 = 0 ∧ 2 ≤ ([0, 3] : List ℚ).length ∧
    0 < polyArcLength sqrtW [0, 3] [0, 4] ∧
    (∃ m, computeDeviationMetrics sqrtW [0, 3] [0, 4] [0, 3] [0, 4] = some m ∧
      m.maxDev = 0 ∧ m.meanDev = 0 ∧ m.rmsDev = 0 ∧ m.p95Dev = 0 ∧
      m.totalLen = round2 (polyArcLength sqrtW [0, 3] [0, 4])) := by
  have h0 : sqrtW 0 = 0 := by norm_num [sqrtW]
  have hpos : 0 < polyArcLength sqrtW [0, 3] [0, 4] := by
    norm_num [polyArcLength, polyArcDs, npDiff, sqrtW, List.zipWith_cons_cons]
  exact ⟨h0, by norm_num, hpos,
    deviation_metrics_identical_curves sqrtW h0 [0, 3] [0, 4] (by norm_num) hpos⟩

theorem negLastRow_eq (Vt : M2 K) :
    negLastRow Vt = Matrix.diagonal ![1, -1] * Vt := by
  ext i j
  fin_cases i <;>
    simp [negLastRow, Matrix.updateRow_apply, Matrix.diagonal_mul]

theorem diag2_sq : (Matrix.diagonal ![(1 : K), -1])ᵀ * Matrix.diagonal ![1, -1] = 1 := by
  rw [Matrix.diagonal_transpose, Matrix.diagonal_mul_diagonal]
  ext i j
  fin_cases i <;> fin_cases j <;> simp [Matrix.diagonal_apply, Matrix.one_apply]

theorem diag2_det : (Matrix.diagonal ![(1 : K), -1]).det = -1 := by
  rw [Matrix.det_diagonal, Fin.prod_univ_two]
  norm_num

theorem det_sq_one_of_orth (M : M2 K) (h : Mᵀ * M = 1) : M.det * M.det = 1 := by
  have := congrArg Matrix.det h
  rw [Matrix.det_mul, Matrix.det_transpose, Matrix.det_one] at this
  exact this

theorem flipRot_so2 (U Vt : M2 K) (hU : Uᵀ * U = 1) (hVt : Vtᵀ * Vt = 1) :
    (flipRot U Vt)ᵀ * flipRot U Vt = 1 ∧ (flipRot U Vt).det = 1 := by
  have hUU : U * Uᵀ = 1 := Matrix.mul_eq_one_comm.mp hU
  have hVV : Vt * Vtᵀ = 1 := Matrix.mul_eq_one_comm.mp hVt
  have horth : (Vtᵀ * Uᵀ)ᵀ * (Vtᵀ * Uᵀ) = 1 := by
    rw [Matrix.transpose_mul, Matrix.transpose_transpose, Matrix.transpose_transpose,
      Matrix.mul_assoc, ← Matrix.mul_assoc Vt Vtᵀ Uᵀ, hVV, Matrix.one_mul, hUU]
  have hdet2 := det_sq_one_of_orth _ horth
  unfold flipRot
  by_cases hneg : (Vtᵀ * Uᵀ).det < 0
  · rw [if_pos hneg]
    have hVt2 : (negLastRow Vt)ᵀ * negLastRow Vt = 1 := by
      rw [negLastRow_eq, Matrix.transpose_mul, Matrix.mul_assoc,
        ← Matrix.mul_assoc (Matrix.diagonal ![1, -1])ᵀ _ Vt, diag2_sq, Matrix.one_mul, hVt]
    have hVV2 : negLastRow Vt * (negLastRow Vt)ᵀ = 1 := Matrix.mul_eq_one_comm.mp hVt2
    have horth2 : ((negLastRow Vt)ᵀ * Uᵀ)ᵀ * ((negLastRow Vt)ᵀ * Uᵀ) = 1 := by
      rw [Matrix.transpose_mul, Matrix.transpose_transpose, Matrix.transpose_transpose,
        Matrix.mul_assoc, ← Matrix.mul_assoc (negLastRow Vt) _ Uᵀ, hVV2, Matrix.one_mul, hUU]
    refine ⟨horth2, ?_⟩
    have hdetflip : ((negLastRow Vt)ᵀ * Uᵀ).det = -((Vtᵀ * Uᵀ).det) := by
      rw [Matrix.det_mul, Matrix.det_mul, Matrix.det_transpose, Matrix.det_transpose,
        negLastRow_eq, Matrix.det_mul, diag2_det, Matrix.det_transpose]
      ring
    rw [hdetflip]
    nlinarith [hdet2]
  · rw [if_neg hneg]
    refine ⟨horth, ?_⟩
    push_neg at hneg
    nlinarith [hdet2]

theorem orth2_cases (P : M2 K) (h : Pᵀ * P = 1) :
    (∃ a b : K, a ^ 2 + b ^ 2 = 1 ∧ P = Matrix.of ![![a, -b], ![b, a]]) ∨
    (∃ a b : K, a ^ 2 + b ^ 2 = 1 ∧ P = Matrix.of ![![a, b], ![b, -a]]) := by
  have h00 := congrFun (congrFun h 0) 0
  have h01 := congrFun (congrFun h 0) 1
  have h11 := congrFun (congrFun h 1) 1
  simp only [Matrix.mul_apply, Fin.sum_univ_two, Matrix.transpose_apply,
    Matrix.one_apply_eq, Matrix.one_apply_ne (by decide : (0 : Fin 2) ≠ 1)] at h00 h01 h11
  have hd2 : (P 0 0 * P 1 1 - P 1 0 * P 0 1) ^ 2 = 1 := by
    linear_combination (P 0 1 ^ 2 + P 1 1 ^ 2) * h00 + h11 -
      (P 0 0 * P 0 1 + P 1 0 * P 1 1) * h01
  have hfact : (P 0 0 * P 1 1 - P 1 0 * P 0 1 - 1) *
      (P 0 0 * P 1 1 - P 1 0 * P 0 1 + 1) = 0 := by
    linear_combination hd2
  rcases mul_eq_zero.mp hfact with he | he
  · left
    refine ⟨P 0 0, P 1 0, by linear_combination h00, ?_⟩
    have hb : P 0 1 = -(P 1 0) := by
      linear_combination P 1 1 * h01 - P 0 1 * he - P 1 0 * h11
    have hd : P 1 1 = P 0 0 := by
      linear_combination -(P 0 1 * h01) - P 1 1 * he + P 0 0 * h11
    ext i j
    fin_cases i <;> fin_cases j <;>
      simp [Matrix.of_apply, hb, hd]
  · right
    refine ⟨P 0 0, P 1 0, by linear_combination h00, ?_⟩
    have hb : P 0 1 = P 1 0 := by
      linear_combination -(P 1 1 * h01) + P 0 1 * he + P 1 0 * h11
    have hd : P 1 1 = -(P 0 0) := by
      linear_combination P 0 1 * h01 + P 1 1 * he - P 0 0 * h11
    ext i j
    fin_cases i <;> fin_cases j <;>
      simp [Matrix.of_apply, hb, hd]

theorem sandwich (Vt R U M : M2 K) (hVt : Vtᵀ * Vt = 1) (hUU : U * Uᵀ = 1)
    (h : Vt * R * U = M) : R = Vtᵀ * M * Uᵀ := by
  have key : Vtᵀ * (Vt * R * U) * Uᵀ = R := by
    rw [show Vt * R * U = Vt * (R * U) from by rw [Matrix.mul_assoc],
      ← Matrix.mul_assoc Vtᵀ Vt (R * U), hVt, Matrix.one_mul, Matrix.mul_assoc, hUU,
      Matrix.mul_one]
  rw [← h, key]

theorem svd_recovery (U Vt C R : M2 K) (σv : Fin 2 → K) (s : K)
    (hU : Uᵀ * U = 1) (hVt : Vtᵀ * Vt = 1)
    (hσd : σv 1 ≤ σv 0) (hσ1 : 0 ≤ σv 1)
    (hCsym : Cᵀ = C) (hCdet : 0 ≤ C.det) (htr : 0 < C.trace)
    (hR : Rᵀ * R = 1) (hRdet : R.det = 1) (hs : 0 < s)
    (hfact : U * Matrix.diagonal σv * Vt = s • (C * Rᵀ)) :
    flipRot U Vt = R ∧ σv 0 + σv 1 = s * C.trace := by
  have hUU : U * Uᵀ = 1 := Matrix.mul_eq_one_comm.mp hU
  have hVV : Vt * Vtᵀ = 1 := Matrix.mul_eq_one_comm.mp hVt
  have hPorth : (Vt * R * U)ᵀ * (Vt * R * U) = 1 := by
    rw [Matrix.transpose_mul, Matrix.transpose_mul]
    calc (Uᵀ * (Rᵀ * Vtᵀ)) * (Vt * R * U)
        = Uᵀ * (Rᵀ * (Vtᵀ * Vt * (R * U))) := by simp only [Matrix.mul_assoc]
      _ = 1 := by
          rw [hVt, Matrix.one_mul, ← Matrix.mul_assoc Rᵀ R U, hR, Matrix.one_mul, hU]
  have hDP : Matrix.diagonal σv * (Vt * R * U) = s • (Uᵀ * C * U) := by
    have h1 : Uᵀ * (U * Matrix.diagonal σv * Vt) = Matrix.diagonal σv * Vt := by
      rw [show U * Matrix.diagonal σv * Vt = U * (Matrix.diagonal σv * Vt) from by
            rw [Matrix.mul_assoc],
        ← Matrix.mul_assoc Uᵀ U _, hU, Matrix.one_mul]
    have h2 : Matrix.diagonal σv * Vt = Uᵀ * (s • (C * Rᵀ)) := by rw [← h1, hfact]
    calc Matrix.diagonal σv * (Vt * R * U)
        = (Matrix.diagonal σv * Vt) * (R * U) := by simp only [Matrix.mul_assoc]
      _ = (Uᵀ * (s • (C * Rᵀ))) * (R * U) := by rw [h2]
      _ = s • (Uᵀ * C * U) := by
          rw [Matrix.mul_smul, Matrix.smul_mul]
          congr 1
          calc Uᵀ * (C * Rᵀ) * (R * U)
              = Uᵀ * (C * (Rᵀ * R * U)) := by simp only [Matrix.mul_assoc]
            _ = Uᵀ * (C * U) := by rw [hR, Matrix.one_mul]
            _ = Uᵀ * C * U := by rw [Matrix.mul_assoc]
  have hGsym : (Uᵀ * C * U)ᵀ = Uᵀ * C * U := by
    rw [Matrix.transpose_mul, Matrix.transpose_mul, Matrix.transpose_transpose, hCsym,
      Matrix.mul_assoc]
  have htrG : (Uᵀ * C * U).trace = C.trace := by
    rw [Matrix.trace_mul_comm (Uᵀ * C) U, ← Matrix.mul_assoc, hUU, Matrix.one_mul]
  have hdetU2 : U.det * U.det = 1 := det_sq_one_of_orth U hU
  have hdetG : (Uᵀ * C * U).det = C.det := by
    rw [Matrix.det_mul, Matrix.det_mul, Matrix.det_transpose]
    calc U.det * C.det * U.det = C.det * (U.det * U.det) := by ring
      _ = C.det := by rw [hdetU2, mul_one]
  have hG01 : (Uᵀ * C * U) 0 1 = (Uᵀ * C * U) 1 0 := by
    have := congrFun (congrFun hGsym 1) 0
    simpa [Matrix.transpose_apply] using this
  have htr2 : (Uᵀ * C * U) 0 0 + (Uᵀ * C * U) 1 1 = C.trace := by
    rw [← htrG, Matrix.trace_fin_two]
  have hσ00 : 0 ≤ σv 0 := le_trans hσ1 hσd
  rcases orth2_cases (Vt * R * U) hPorth with ⟨a, b, hab, hP⟩ | ⟨a, b, hab, hP⟩
  · -- rotation case
    rw [hP] at hDP
    have e00 := congrFun (congrFun hDP 0) 0
    have e01 := congrFun (congrFun hDP 0) 1
    have e10 := congrFun (congrFun hDP 1) 0
    have e11 := congrFun (congrFun hDP 1) 1
    simp only [Matrix.diagonal_mul, Matrix.smul_apply, Matrix.of_apply,
      Matrix.cons_val_zero, Matrix.cons_val_one, Matrix.head_cons, smul_eq_mul] at e00 e01 e10 e11
    have hsum : σv 0 * a + σv 1 * a = s * C.trace := by
      linear_combination e00 + e11 + s * htr2
    have htrpos : 0 < s * C.trace := mul_pos hs htr
    have hσpos : 0 < σv 0 + σv 1 := by
      rcases lt_or_eq_of_le (by linarith : (0 : K) ≤ σv 0 + σv 1) with hlt | heq
      · exact hlt
      · exfalso
        have h0 : σv 0 = 0 := by linarith
        have h1 : σv 1 = 0 := by linarith
        rw [h0, h1] at hsum
        simp at hsum
        rcases hsum with hx | hx
        · exact absurd hx (ne_of_gt hs)
        · exact absurd hx (ne_of_gt htr)
    have hb0 : b * (σv 0 + σv 1) = 0 := by
      linear_combination -e01 + e10 - s * hG01
    have hb_zero : b = 0 := by
      rcases mul_eq_zero.mp hb0 with hb | hb
      · exact hb
      · exact absurd hb (ne_of_gt hσpos)
    have ha_pos : 0 < a := by nlinarith [hsum, htrpos, hσpos]
    have ha1 : a = 1 := by
      have hfa : (a - 1) * (a + 1) = 0 := by linear_combination hab - b * hb_zero
      rcases mul_eq_zero.mp hfa with hx | hx
      · linarith [sub_eq_zero.mp hx]
      · nlinarith [ha_pos]
    have hP1 : Vt * R * U = 1 := by
      rw [hP, ha1, hb_zero]
      ext i j
      fin_cases i <;> fin_cases j <;> simp [Matrix.of_apply, Matrix.one_apply]
    have hRval : R = Vtᵀ * Uᵀ := by
      have h := sandwich Vt R U 1 hVt hUU hP1
      rwa [Matrix.mul_one] at h
    constructor
    · unfold flipRot
      have hdetRU : (Vtᵀ * Uᵀ).det = 1 := by rw [← hRval]; exact hRdet
      rw [if_neg (by rw [hdetRU]; norm_num)]
      exact hRval.symm
    · linear_combination hsum - (σv 0 + σv 1) * ha1
  · -- reflection case
    rw [hP] at hDP
    have e00 := congrFun (congrFun hDP 0) 0
    have e01 := congrFun (congrFun hDP 0) 1
    have e10 := congrFun (congrFun hDP 1) 0
    have e11 := congrFun (congrFun hDP 1) 1
    simp only [Matrix.diagonal_mul, Matrix.smul_apply, Matrix.of_apply,
      Matrix.cons_val_zero, Matrix.cons_val_one, Matrix.head_cons, smul_eq_mul] at e00 e01 e10 e11
    have hdd := congrArg Matrix.det hDP
    rw [Matrix.det_mul, Matrix.det_diagonal, Fin.prod_univ_two, Matrix.det_smul, hdetG,
      Matrix.det_fin_two_of, Fintype.card_fin] at hdd
    have hm1 : a * -a - b * b = -1 := by linear_combination -hab
    rw [hm1] at hdd
    have hsq : 0 ≤ s ^ 2 * Matrix.det C := mul_nonneg (pow_nonneg hs.le 2) hCdet
    have hprod_le : σv 0 * σv 1 ≤ 0 := by linarith [hdd, hsq]
    have hprod0 : σv 0 * σv 1 = 0 :=
      le_antisymm hprod_le (mul_nonneg hσ00 hσ1)
    have hsum : σv 0 * a + σv 1 * -a = s * C.trace := by
      linear_combination e00 + e11 + s * htr2
    have htrpos : 0 < s * C.trace := mul_pos hs htr
    have hσ0pos : 0 < σv 0 := by
      rcases lt_or_eq_of_le hσ00 with hpos | heq
      · exact hpos
      · exfalso
        have h0 : σv 0 = 0 := heq.symm
        have h1 : σv 1 = 0 := le_antisymm (h0 ▸ hσd) hσ1
        rw [h0, h1] at hsum
        simp at hsum
        rcases hsum with hx | hx
        · exact absurd hx (ne_of_gt hs)
        · exact absurd hx (ne_of_gt htr)
    have hσ1z : σv 1 = 0 := by
      rcases mul_eq_zero.mp hprod0 with hx | hx
      · exact absurd hx (ne_of_gt hσ0pos)
      · exact hx
    have hb_zero : b = 0 := by
      have hσb : σv 0 * b = 0 := by
        linear_combination e01 - e10 + s * hG01 + b * hσ1z
      rcases mul_eq_zero.mp hσb with hx | hx
      · exact absurd hx (ne_of_gt hσ0pos)
      · exact hx
    have ha_pos : 0 < a := by nlinarith [hsum, htrpos, hσ0pos, hσ1z]
    have ha1 : a = 1 := by
      have hfa : (a - 1) * (a + 1) = 0 := by linear_combination hab - b * hb_zero
      rcases mul_eq_zero.mp hfa with hx | hx
      · linarith [sub_eq_zero.mp hx]
      · nlinarith [ha_pos]
    have hPD : Vt * R * U = Matrix.diagonal ![1, -1] := by
      rw [hP, ha1, hb_zero]
      ext i j
      fin_cases i <;> fin_cases j <;> simp [Matrix.of_apply, Matrix.diagonal_apply]
    have hRval : R = Vtᵀ * Matrix.diagonal ![1, -1] * Uᵀ :=
      sandwich Vt R U (Matrix.diagonal ![1, -1]) hVt hUU hPD
    have hdetRU : (Vtᵀ * Uᵀ).det = -1 := by
      have h1 : R.det = (Vtᵀ * Uᵀ).det * -1 := by
        rw [hRval, Matrix.det_mul, Matrix.det_mul, diag2_det, Matrix.det_mul]
        ring
      rw [hRdet] at h1
      linarith
    constructor
    · unfold flipRot
      rw [if_pos (by rw [hdetRU]; norm_num)]
      rw [negLastRow_eq, Matrix.transpose_mul, Matrix.diagonal_transpose, hRval]
    · linear_combination hsum - σv 0 * ha1 + (1 + a) * hσ1z

theorem list_sum_sq_nonneg (l : List (V2 K)) (i : Fin 2) :
    0 ≤ (l.map (fun p => p i * p i)).sum := by
  induction l with
  | nil => simp
  | cons p ps ih =>
    simp only [List.map_cons, List.sum_cons]
    nlinarith [mul_self_nonneg (p i)]

theorem cs_step (a b A B S : K) (hA : 0 ≤ A) (hB : 0 ≤ B) (h : S ^ 2 ≤ A * B) :
    (a * b + S) ^ 2 ≤ (a * a + A) * (b * b + B) := by
  rcases eq_or_lt_of_le hB with hB0 | hBpos
  · have hS : S = 0 := by nlinarith [sq_nonneg S]
    subst hS
    nlinarith [mul_nonneg hA (mul_self_nonneg b), sq_nonneg (a * b)]
  · have h2 : (0 : K) ≤ A * B - S ^ 2 := by linarith
    nlinarith [hBpos, sq_nonneg (a * B - b * S), mul_nonneg (sq_nonneg b) h2,
      mul_nonneg (le_of_lt hBpos) h2]

theorem list_cs (l : List (V2 K)) :
    ((l.map (fun p => p 0 * p 1)).sum) ^ 2 ≤
      (l.map (fun p => p 0 * p 0)).sum * (l.map (fun p => p 1 * p 1)).sum := by
  induction l with
  | nil => simp
  | cons p ps ih =>
    simp only [List.map_cons, List.sum_cons]
    exact cs_step (p 0) (p 1) _ _ _ (list_sum_sq_nonneg ps 0) (list_sum_sq_nonneg ps 1) ih

theorem crossCov_self_apply (l : List (V2 K)) (i j : Fin 2) :
    crossCov l l i j = (l.map (fun p => p i * p j)).sum := by
  induction l with
  | nil => rfl
  | cons p ps ih =>
    show (Matrix.vecMulVec p p + crossCov ps ps) i j = _
    rw [Matrix.add_apply, ih, Matrix.vecMulVec_apply, List.map_cons, List.sum_cons]

theorem crossCov_self_symm (l : List (V2 K)) : (crossCov l l)ᵀ = crossCov l l := by
  ext i j
  rw [Matrix.transpose_apply, crossCov_self_apply, crossCov_self_apply]
  exact congrArg List.sum (congrArg (List.map · l) (funext fun p => mul_comm (p j) (p i)))

theorem crossCov_self_det_nonneg (l : List (V2 K)) : 0 ≤ (crossCov l l).det := by
  rw [Matrix.det_fin_two, crossCov_self_apply, crossCov_self_apply, crossCov_self_apply,
    crossCov_self_apply]
  have h10 : (fun p : V2 K => p 1 * p 0) = fun p => p 0 * p 1 :=
    funext fun p => mul_comm (p 1) (p 0)
  rw [h10]
  nlinarith [list_cs l]

theorem list_sum_map_add (f g : V2 K → K) (l : List (V2 K)) :
    (l.map (fun p => f p + g p)).sum = (l.map f).sum + (l.map g).sum := by
  induction l with
  | nil => simp
  | cons p ps ih =>
    simp only [List.map_cons, List.sum_cons, ih]
    ring

theorem crossCov_self_trace (l : List (V2 K)) :
    (crossCov l l).trace = (l.map (fun p => p 0 ^ 2 + p 1 ^ 2)).sum := by
  rw [Matrix.trace_fin_two, crossCov_self_apply, crossCov_self_apply, ← list_sum_map_add]
  exact congrArg List.sum (congrArg (List.map · l) (funext fun p => by ring))

theorem sum_map_affine (s : K) (R : M2 K) (t : V2 K) (l : List (V2 K)) :
    (l.map (fun p => s • R.mulVec p + t)).sum = s • R.mulVec l.sum + l.length • t := by
  induction l with
  | nil => simp [Matrix.mulVec_zero]
  | cons p ps ih =>
    simp only [List.map_cons, List.sum_cons, ih, List.length_cons, Matrix.mulVec_add,
      smul_add, succ_nsmul]
    abel

theorem listMean_map_affine (s : K) (R : M2 K) (t : V2 K) (l : List (V2 K)) (hl : l ≠ []) :
    listMean (l.map (fun p => s • R.mulVec p + t)) = s • R.mulVec (listMean l) + t := by
  unfold listMean
  rw [List.length_map, sum_map_affine, smul_add]
  have hn : ((l.length : K)) ≠ 0 :=
    Nat.cast_ne_zero.mpr (fun h => hl (List.length_eq_zero.mp h))
  congr 1
  · rw [Matrix.mulVec_smul, smul_comm]
  · rw [← Nat.cast_smul_eq_nsmul K, smul_smul, inv_mul_cancel₀ hn, one_smul]

theorem centeredList_map_affine (s : K) (R : M2 K) (t : V2 K) (l : List (V2 K)) (hl : l ≠ []) :
    centeredList (l.map (fun p => s • R.mulVec p + t)) =
      (centeredList l).map (fun p => s • R.mulVec p) := by
  unfold centeredList
  rw [listMean_map_affine s R t l hl, List.map_map, List.map_map]
  congr 1
  funext p
  show s • R.mulVec p + t - (s • R.mulVec (listMean l) + t) =
    s • R.mulVec (p - listMean l)
  rw [Matrix.mulVec_sub, smul_sub]
  abel

theorem vecMulVec_smulR (p : V2 K) (s : K) (R : M2 K) :
    Matrix.vecMulVec p (s • R.mulVec p) = s • (Matrix.vecMulVec p p * Rᵀ) := by
  ext i j
  simp only [Matrix.vecMulVec_apply, Matrix.smul_apply, Matrix.mul_apply, Fin.sum_univ_two,
    Matrix.transpose_apply, Matrix.mulVec, Matrix.dotProduct, Pi.smul_apply, smul_eq_mul]
  ring

theorem crossCov_affine (s : K) (R : M2 K) (l : List (V2 K)) :
    crossCov l (l.map (fun p => s • R.mulVec p)) = s • (crossCov l l * Rᵀ) := by
  induction l with
  | nil => simp [crossCov, Matrix.zero_mul]
  | cons p ps ih =>
    show Matrix.vecMulVec p (s • R.mulVec p) + crossCov ps (ps.map (fun p => s • R.mulVec p)) = _
    rw [ih, vecMulVec_smulR]
    show _ = s • ((Matrix.vecMulVec p p + crossCov ps ps) * Rᵀ)
    rw [Matrix.add_mul, smul_add]

theorem list_sum_pos_mem (l : List K) (hall : ∀ x ∈ l, 0 ≤ x) (x : K) (hx : x ∈ l)
    (hpos : 0 < x) : 0 < l.sum := by
  induction l with
  | nil => cases hx
  | cons y ys ih =>
    rcases List.mem_cons.mp hx with rfl | hmem
    · have hys : 0 ≤ ys.sum :=
        List.sum_nonneg (fun z hz => hall z (List.mem_cons_of_mem _ hz))
      rw [List.sum_cons]
      linarith
    · have h0 : 0 ≤ y := hall y (List.mem_cons_self _ _)
      have := ih (fun z hz => hall z (List.mem_cons_of_mem _ hz)) hmem
      rw [List.sum_cons]
      linarith

theorem zip_self_map {α β : Type} (l : List α) (g : α → β) :
    l.zip (l.map g) = l.map (fun x => (x, g x)) := by
  induction l with
  | nil => rfl
  | cons x xs ih => simp [ih]

theorem list_sum_map_zero {α : Type} (l : List α) : (l.map (fun _ => (0 : K))).sum = 0 := by
  induction l with
  | nil => rfl
  | cons x xs ih => simp [ih]

/-- Claim C2: exact recovery — for every non-degenerate src point set (at
least two non-coincident points) and every proper similarity transform with
rotation R, scale s > 0 and translation t, if dst is exactly
`s • R • src + t` point for point, then `_compute_similarity_transform`
returns the transform with top-left block `s • R` and translation column `t`,
with mean residual exactly 0 (in the exact-arithmetic model). -/
theorem similarity_exact_recovery (svd : M2 K → M2 K × V2 K × M2 K) (sqrt : K → K)
    (hsq : sqrt 0 = 0) (src : List (V2 K)) (R : M2 K) (s : K) (t : V2 K)
    (hR : Rᵀ * R = 1) (hRdet : R.det = 1) (hs : 0 < s)
    (hnd : ∃ p ∈ src, ∃ q ∈ src, p ≠ q)
    (hsvd : IsSVD (simHOf src (src.map (fun p => s • R.mulVec p + t)))
      (svd (simHOf src (src.map (fun p => s • R.mulVec p + t))))) :
    computeSimilarityTransform svd sqrt src (src.map (fun p => s • R.mulVec p + t)) =
      (mkT (s • R) t, EVal.val 0) := by
  obtain ⟨p₀, hp₀, q₀, hq₀, hpq⟩ := hnd
  have hl : src ≠ [] := List.ne_nil_of_mem hp₀
  have hexr : ∃ r ∈ centeredList src, r ≠ (0 : V2 K) := by
    by_cases hp : p₀ - listMean src = 0
    · refine ⟨q₀ - listMean src, List.mem_map_of_mem _ hq₀, fun hq => hpq ?_⟩
      rw [sub_eq_zero] at hp hq
      rw [hp, hq]
    · exact ⟨p₀ - listMean src, List.mem_map_of_mem _ hp₀, hp⟩
  have hsq_pos : 0 < ((centeredList src).map (fun p => p 0 ^ 2 + p 1 ^ 2)).sum := by
    obtain ⟨r, hr, hrne⟩ := hexr
    have hri : r 0 ≠ 0 ∨ r 1 ≠ 0 := by
      by_contra hc
      push_neg at hc
      exact hrne (funext fun i => by fin_cases i <;> simp [hc.1, hc.2])
    have hxpos : 0 < r 0 ^ 2 + r 1 ^ 2 := by
      rcases hri with h | h
      · have h2 : 0 < r 0 ^ 2 := by positivity
        nlinarith [sq_nonneg (r 1)]
      · have h2 : 0 < r 1 ^ 2 := by positivity
        nlinarith [sq_nonneg (r 0)]
    refine list_sum_pos_mem _ ?_ (r 0 ^ 2 + r 1 ^ 2) (List.mem_map_of_mem _ hr) hxpos
    intro x hx
    obtain ⟨y, hy, rfl⟩ := List.mem_map.mp hx
    positivity
  have hnpos : (0 : K) < (((centeredList src).length : K)) := by
    have h1 : 0 < (centeredList src).length := by
      unfold centeredList
      rw [List.length_map]
      exact List.length_pos.mpr hl
    exact_mod_cast h1
  have hvar : 0 < ((centeredList src).map (fun p => p 0 ^ 2 + p 1 ^ 2)).sum /
      (((centeredList src).length : K)) := div_pos hsq_pos hnpos
  have hHfact : simHOf src (src.map (fun p => s • R.mulVec p + t)) =
      s • ((((((centeredList src).length : K)))⁻¹ •
        crossCov (centeredList src) (centeredList src)) * Rᵀ) := by
    unfold simHOf
    rw [centeredList_map_affine s R t src hl, crossCov_affine, smul_comm, Matrix.smul_mul]
  have hCsym : (((((centeredList src).length : K)))⁻¹ •
      crossCov (centeredList src) (centeredList src))ᵀ =
      ((((centeredList src).length : K)))⁻¹ •
        crossCov (centeredList src) (centeredList src) := by
    rw [Matrix.transpose_smul, crossCov_self_symm]
  have hCdet : 0 ≤ (((((centeredList src).length : K)))⁻¹ •
      crossCov (centeredList src) (centeredList src)).det := by
    rw [Matrix.det_smul, Fintype.card_fin]
    exact mul_nonneg (pow_nonneg (inv_nonneg.mpr hnpos.le) 2) (crossCov_self_det_nonneg _)
  have hCtr : (((((centeredList src).length : K)))⁻¹ •
      crossCov (centeredList src) (centeredList src)).trace =
      ((centeredList src).map (fun p => p 0 ^ 2 + p 1 ^ 2)).sum /
        (((centeredList src).length : K)) := by
    rw [Matrix.trace_smul, crossCov_self_trace, smul_eq_mul, inv_mul_eq_div]
  have hCtrpos : 0 < (((((centeredList src).length : K)))⁻¹ •
      crossCov (centeredList src) (centeredList src)).trace := by
    rw [hCtr]
    exact hvar
  obtain ⟨hU, hVt, hσd, hσ1, hfact⟩ := hsvd
  obtain ⟨hflip, hσsum⟩ := svd_recovery
    (svd (simHOf src (src.map (fun p => s • R.mulVec p + t)))).1
    (svd (simHOf src (src.map (fun p => s • R.mulVec p + t)))).2.2
    (((((centeredList src).length : K)))⁻¹ •
      crossCov (centeredList src) (centeredList src)) R
    (svd (simHOf src (src.map (fun p => s • R.mulVec p + t)))).2.1 s
    hU hVt hσd hσ1 hCsym hCdet hCtrpos hR hRdet hs (hfact.trans hHfact)
  have hscale : (if 0 < ((centeredList src).map (fun p => p 0 ^ 2 + p 1 ^ 2)).sum /
        (((centeredList src).length : K)) then
      ((svd (simHOf src (src.map (fun p => s • R.mulVec p + t)))).2.1 0 +
        (svd (simHOf src (src.map (fun p => s • R.mulVec p + t)))).2.1 1) /
        (((centeredList src).map (fun p => p 0 ^ 2 + p 1 ^ 2)).sum /
          (((centeredList src).length : K)))
      else 1) = s := by
    rw [if_pos hvar, hσsum, hCtr]
    exact mul_div_cancel_right₀ s (ne_of_gt hvar)
  have ht : listMean (src.map (fun p => s • R.mulVec p + t)) - s • R.mulVec (listMean src)
      = t := by
    rw [listMean_map_affine s R t src hl, add_sub_cancel_left]
  have hres : ∀ p : V2 K, norm2 sqrt (s • R.mulVec p + t - (s • R.mulVec p + t)) = 0 := by
    intro p
    rw [sub_self]
    unfold norm2
    simp [hsq]
  simp only [computeSimilarityTransform]
  rw [if_neg (by simp [hl])]
  simp only [hscale, hflip, ht]
  rw [zip_self_map, List.map_map]
  have hfuneq : ((fun pq : V2 K × V2 K => norm2 sqrt (s • R.mulVec pq.1 + t - pq.2)) ∘
      fun x => (x, s • R.mulVec x + t)) = fun _ : V2 K => (0 : K) :=
    funext fun p => hres p
  rw [hfuneq, list_sum_map_zero, List.length_map]
  rw [if_neg (by simpa using fun h => hl (List.length_eq_zero.mp h))]
  rw [zero_div]

theorem diagSvd_isSVD (H : M2 K) (hd : H 0 1 = 0) (hd2 : H 1 0 = 0)
    (h01 : H 1 1 ≤ H 0 0) (h1 : 0 ≤ H 1 1) : IsSVD H (diagSvd H) := by
  refine ⟨by simp [diagSvd], by simp [diagSvd], h01, h1, ?_⟩
  show (1 : M2 K) * Matrix.diagonal ![H 0 0, H 1 1] * 1 = H
  rw [Matrix.one_mul, Matrix.mul_one]
  ext i j
  fin_cases i <;> fin_cases j <;>
    simp [Matrix.diagonal_apply, hd, hd2]

theorem estInvH_rigid : rigidHOf ([![1, 0], ![-1, 0]] : List (V2 ℚ)) [![1, 0], ![-1, 0]] =
    Matrix.of ![![2, 0], ![0, 0]] := by
  ext i j
  fin_cases i <;> fin_cases j <;>
    norm_num [rigidHOf, crossCov, centeredList, listMean, Matrix.vecMulVec_apply,
      Matrix.add_apply, Matrix.zero_apply, Matrix.of_apply, Pi.sub_apply,
      Pi.smul_apply, Pi.add_apply, Pi.zero_apply, Matrix.cons_val_zero,
      Matrix.cons_val_one, Matrix.head_cons]

theorem estInvH_sim : simHOf ([![1, 0], ![-1, 0]] : List (V2 ℚ)) [![1, 0], ![-1, 0]] =
    Matrix.of ![![1, 0], ![0, 0]] := by
  ext i j
  fin_cases i <;> fin_cases j <;>
    norm_num [simHOf, crossCov, centeredList, listMean, Matrix.vecMulVec_apply,
      Matrix.add_apply, Matrix.zero_apply, Matrix.of_apply, Pi.sub_apply,
      Pi.smul_apply, Pi.add_apply, Pi.zero_apply, smul_eq_mul, Matrix.smul_apply,
      Matrix.cons_val_zero, Matrix.cons_val_one, Matrix.head_cons]

theorem simZeroH : simHOf ([![0, 0], ![2, 0]] : List (V2 ℚ)) [![0, 0], ![0, 0]] = 0 := by
  ext i j
  fin_cases i <;> fin_cases j <;>
    norm_num [simHOf, crossCov, centeredList, listMean, Matrix.vecMulVec_apply,
      Matrix.add_apply, Matrix.zero_apply, Matrix.of_apply, Pi.sub_apply,
      Pi.smul_apply, Pi.add_apply, Pi.zero_apply, smul_eq_mul, Matrix.smul_apply,
      Matrix.cons_val_zero, Matrix.cons_val_one, Matrix.head_cons]

theorem simZero_lin : linOf (computeSimilarityTransform diagSvd sqrtW
    ([![0, 0], ![2, 0]] : List (V2 ℚ)) [![0, 0], ![0, 0]]).1 = 0 := by
  have hvar : ((centeredList ([![0, 0], ![2, 0]] : List (V2 ℚ))).map
      (fun p => p 0 ^ 2 + p 1 ^ 2)).sum /
      (((centeredList ([![0, 0], ![2, 0]] : List (V2 ℚ))).length : ℚ)) = 1 := by
    norm_num [centeredList, listMean, Pi.sub_apply, Pi.smul_apply, Pi.add_apply,
      Pi.zero_apply, smul_eq_mul, Matrix.cons_val_zero, Matrix.cons_val_one,
      Matrix.head_cons]
  simp only [computeSimilarityTransform]
  rw [if_neg (by norm_num)]
  rw [simZeroH, hvar]
  simp only [diagSvd, Matrix.zero_apply, flipRot_one_one]
  rw [if_pos (by norm_num : (0 : ℚ) < 1)]
  ext i j
  fin_cases i <;> fin_cases j <;>
    norm_num [linOf, mkT, Matrix.of_apply, Matrix.zero_apply, Matrix.smul_apply,
      smul_eq_mul, Matrix.one_apply, Matrix.cons_val_zero, Matrix.cons_val_one,
      Matrix.head_cons]

/-- Claim C8 (amended): every transform matrix produced by the two estimators
has bottom row `(0, 0, 1)` and a top-left 2x2 block of the form `sc • R` with
`R` orthogonal of determinant `+1`; for the rigid estimator the scale is
exactly `1 > 0`, but for the similarity estimator the scale is only
guaranteed nonnegative (it can be `0`, see the counterexample). -/
theorem estimator_transform_invariant (svd : M2 K → M2 K × V2 K × M2 K) (sqrt : K → K)
    (src dst : List (V2 K))
    (hrig : IsSVD (rigidHOf src dst) (svd (rigidHOf src dst)))
    (hsim : IsSVD (simHOf src dst) (svd (simHOf src dst))) :
    (bottomRowP (computeRigidTransform svd sqrt src dst).1 ∧
      ∃ R : M2 K, Rᵀ * R = 1 ∧ R.det = 1 ∧
        linOf (computeRigidTransform svd sqrt src dst).1 = (1 : K) • R) ∧
    (bottomRowP (computeSimilarityTransform svd sqrt src dst).1 ∧
      ∃ sc : K, 0 ≤ sc ∧ ∃ R : M2 K, Rᵀ * R = 1 ∧ R.det = 1 ∧
        linOf (computeSimilarityTransform svd sqrt src dst).1 = sc • R) := by
  refine ⟨⟨computeRigid_bottomRow svd sqrt src dst, ?_⟩,
    computeSim_bottomRow svd sqrt src dst, ?_⟩
  · by_cases hg : src.isEmpty ∨ dst.isEmpty
    · refine ⟨1, by simp, Matrix.det_one, ?_⟩
      simp only [computeRigidTransform]
      rw [if_pos hg, one_smul]
      ext i j
      fin_cases i <;> fin_cases j <;> simp [linOf, Matrix.one_apply, Matrix.of_apply]
    · obtain ⟨hU, hVt, _, _, _⟩ := hrig
      obtain ⟨ho, hd⟩ := flipRot_so2 _ _ hU hVt
      refine ⟨flipRot (svd (rigidHOf src dst)).1 (svd (rigidHOf src dst)).2.2,
        ho, hd, ?_⟩
      rw [one_smul]
      simp only [computeRigidTransform]
      rw [if_neg hg]
      exact linOf_mkT _ _
  · by_cases hg : src.isEmpty ∨ dst.isEmpty
    · refine ⟨1, zero_le_one, 1, by simp, Matrix.det_one, ?_⟩
      simp only [computeSimilarityTransform]
      rw [if_pos hg, one_smul]
      ext i j
      fin_cases i <;> fin_cases j <;> simp [linOf, Matrix.one_apply, Matrix.of_apply]
    · obtain ⟨hU, hVt, hσd, hσ1, _⟩ := hsim
      obtain ⟨ho, hd⟩ := flipRot_so2 _ _ hU hVt
      refine ⟨(if 0 < ((centeredList src).map (fun p => p 0 ^ 2 + p 1 ^ 2)).sum /
            (((centeredList src).length : K)) then
          ((svd (simHOf src dst)).2.1 0 + (svd (simHOf src dst)).2.1 1) /
            (((centeredList src).map (fun p => p 0 ^ 2 + p 1 ^ 2)).sum /
              (((centeredList src).length : K)))
        else 1), ?_,
        flipRot (svd (simHOf src dst)).1 (svd (simHOf src dst)).2.2, ho, hd, ?_⟩
      · split_ifs with hv
        · exact div_nonneg (by linarith) (le_of_lt hv)
        · exact zero_le_one
      · simp only [computeSimilarityTransform]
        rw [if_neg hg]
        exact linOf_mkT _ _

theorem estimator_transform_invariant_witness :
    (IsSVD (rigidHOf ([![1, 0], ![-1, 0]] : List (V2 ℚ)) [![1, 0], ![-1, 0]])
        (diagSvd (rigidHOf ([![1, 0], ![-1, 0]] : List (V2 ℚ)) [![1, 0], ![-1, 0]])) ∧
      IsSVD (simHOf ([![1, 0], ![-1, 0]] : List (V2 ℚ)) [![1, 0], ![-1, 0]])
        (diagSvd (simHOf ([![1, 0], ![-1, 0]] : List (V2 ℚ)) [![1, 0], ![-1, 0]]))) ∧
    ((bottomRowP (computeRigidTransform diagSvd sqrtW
        ([![1, 0], ![-1, 0]] : List (V2 ℚ)) [![1, 0], ![-1, 0]]).1 ∧
      ∃ R : M2 ℚ, Rᵀ * R = 1 ∧ R.det = 1 ∧
        linOf (computeRigidTransform diagSvd sqrtW
          ([![1, 0], ![-1, 0]] : List (V2 ℚ)) [![1, 0], ![-1, 0]]).1 = (1 : ℚ) • R) ∧
    (bottomRowP (computeSimilarityTransform diagSvd sqrtW
        ([![1, 0], ![-1, 0]] : List (V2 ℚ)) [![1, 0], ![-1, 0]]).1 ∧
      ∃ sc : ℚ, 0 ≤ sc ∧ ∃ R : M2 ℚ, Rᵀ * R = 1 ∧ R.det = 1 ∧
        linOf (computeSimilarityTransform diagSvd sqrtW
          ([![1, 0], ![-1, 0]] : List (V2 ℚ)) [![1, 0], ![-1, 0]]).1 = sc • R)) := by
  have h1 : IsSVD (rigidHOf ([![1, 0], ![-1, 0]] : List (V2 ℚ)) [![1, 0], ![-1, 0]])
      (diagSvd (rigidHOf ([![1, 0], ![-1, 0]] : List (V2 ℚ)) [![1, 0], ![-1, 0]])) := by
    rw [estInvH_rigid]
    refine diagSvd_isSVD _ rfl rfl ?_ ?_ <;>
      norm_num [Matrix.of_apply, Matrix.cons_val_zero, Matrix.cons_val_one,
        Matrix.head_cons]
  have h2 : IsSVD (simHOf ([![1, 0], ![-1, 0]] : List (V2 ℚ)) [![1, 0], ![-1, 0]])
      (diagSvd (simHOf ([![1, 0], ![-1, 0]] : List (V2 ℚ)) [![1, 0], ![-1, 0]])) := by
    rw [estInvH_sim]
    refine diagSvd_isSVD _ rfl rfl ?_ ?_ <;>
      norm_num [Matrix.of_apply, Matrix.cons_val_zero, Matrix.cons_val_one,
        Matrix.head_cons]
  exact ⟨⟨h1, h2⟩, estimator_transform_invariant diagSvd sqrtW _ _ h1 h2⟩

/-- Claim C8, counterexample to `scale > 0` as stated: on
`src = [(0,0), (2,0)]`, `dst = [(0,0), (0,0)]` (a realisable input — all
sample points matched to one destination point) the similarity estimator's
SVD argument is handled exactly by a genuine SVD oracle, yet the returned
linear block is the zero matrix, which is not `sc • R` for any `sc > 0` and
any rotation `R`. -/
theorem similarity_zero_scale_counterexample :
    IsSVD (simHOf ([![0, 0], ![2, 0]] : List (V2 ℚ)) [![0, 0], ![0, 0]])
      (diagSvd (simHOf ([![0, 0], ![2, 0]] : List (V2 ℚ)) [![0, 0], ![0, 0]])) ∧
    ¬∃ sc : ℚ, 0 < sc ∧ ∃ R : M2 ℚ, Rᵀ * R = 1 ∧ R.det = 1 ∧
      linOf (computeSimilarityTransform diagSvd sqrtW
        ([![0, 0], ![2, 0]] : List (V2 ℚ)) [![0, 0], ![0, 0]]).1 = sc • R := by
  constructor
  · rw [simZeroH]
    exact diagSvd_isSVD _ rfl rfl le_rfl le_rfl
  · rintro ⟨sc, hsc, R, hRo, hRdet, hlin⟩
    rw [simZero_lin] at hlin
    have hdet := congrArg Matrix.det hlin
    have h0 : ((0 : M2 ℚ)).det = 0 := by simp
    rw [h0, Matrix.det_smul, Fintype.card_fin, hRdet, mul_one] at hdet
    have hpos : 0 < sc ^ 2 := pow_pos hsc 2
    linarith

theorem simRecH : simHOf ([![1, 0], ![-1, 0]] : List (V2 ℚ))
    (([![1, 0], ![-1, 0]] : List (V2 ℚ)).map
      (fun p => (2 : ℚ) • (1 : M2 ℚ).mulVec p + ![3, 5])) =
    Matrix.of ![![2, 0], ![0, 0]] := by
  ext i j
  fin_cases i <;> fin_cases j <;>
    norm_num [simHOf, crossCov, centeredList, listMean, List.map_cons, List.map_nil,
      Matrix.one_mulVec, Matrix.vecMulVec_apply, Matrix.add_apply, Matrix.zero_apply,
      Matrix.of_apply, Pi.sub_apply, Pi.smul_apply, Pi.add_apply, Pi.zero_apply,
      smul_eq_mul, Matrix.smul_apply, Matrix.cons_val_zero, Matrix.cons_val_one,
      Matrix.head_cons]

theorem similarity_exact_recovery_witness :
    sqrtW 0 = 0 ∧ ((1 : M2 ℚ))ᵀ * 1 = 1 ∧ ((1 : M2 ℚ)).det = 1 ∧ (0 : ℚ) < 2 ∧
    (∃ p ∈ ([![1, 0], ![-1, 0]] : List (V2 ℚ)),
      ∃ q ∈ ([![1, 0], ![-1, 0]] : List (V2 ℚ)), p ≠ q) ∧
    IsSVD (simHOf ([![1, 0], ![-1, 0]] : List (V2 ℚ))
        (([![1, 0], ![-1, 0]] : List (V2 ℚ)).map
          (fun p => (2 : ℚ) • (1 : M2 ℚ).mulVec p + ![3, 5])))
      (diagSvd (simHOf ([![1, 0], ![-1, 0]] : List (V2 ℚ))
        (([![1, 0], ![-1, 0]] : List (V2 ℚ)).map
          (fun p => (2 : ℚ) • (1 : M2 ℚ).mulVec p + ![3, 5])))) ∧
    computeSimilarityTransform diagSvd sqrtW ([![1, 0], ![-1, 0]] : List (V2 ℚ))
        (([![1, 0], ![-1, 0]] : List (V2 ℚ)).map
          (fun p => (2 : ℚ) • (1 : M2 ℚ).mulVec p + ![3, 5])) =
      (mkT ((2 : ℚ) • (1 : M2 ℚ)) ![3, 5], EVal.val 0) := by
  have hsq : sqrtW 0 = 0 := by norm_num [sqrtW]
  have hR : ((1 : M2 ℚ))ᵀ * 1 = 1 := by rw [Matrix.transpose_one, Matrix.one_mul]
  have hs : (0 : ℚ) < 2 := by norm_num
  have hnd : ∃ p ∈ ([![1, 0], ![-1, 0]] : List (V2 ℚ)),
      ∃ q ∈ ([![1, 0], ![-1, 0]] : List (V2 ℚ)), p ≠ q := by
    refine ⟨![1, 0], by simp, ![-1, 0], by simp, fun h => ?_⟩
    have h0 := congrFun h 0
    norm_num [Matrix.cons_val_zero] at h0
  have hsvd : IsSVD (simHOf ([![1, 0], ![-1, 0]] : List (V2 ℚ))
      (([![1, 0], ![-1, 0]] : List (V2 ℚ)).map
        (fun p => (2 : ℚ) • (1 : M2 ℚ).mulVec p + ![3, 5])))
      (diagSvd (simHOf ([![1, 0], ![-1, 0]] : List (V2 ℚ))
        (([![1, 0], ![-1, 0]] : List (V2 ℚ)).map
          (fun p => (2 : ℚ) • (1 : M2 ℚ).mulVec p + ![3, 5])))) := by
    rw [simRecH]
    refine diagSvd_isSVD _ rfl rfl ?_ ?_ <;>
      norm_num [Matrix.of_apply, Matrix.cons_val_zero, Matrix.cons_val_one,
        Matrix.head_cons]
  exact ⟨hsq, hR, Matrix.det_one, hs, hnd, hsvd,
    similarity_exact_recovery diagSvd sqrtW hsq _ 1 2 ![3, 5] hR Matrix.det_one hs
      hnd hsvd⟩
